import Mathlib

/-!
# http-server-ping: the `/request` handler of `cmd/server.go`

A shallow embedding of the handler registered by `buildServer` together with
`parseIntQuery`, `respondBadRequest` and `writeBody`, and of the few standard
library operations the handler relies on (`url.Values.Has/Get`, `strconv.Atoi`,
`http.Header.Set`, `strings.Repeat`, the `%q` verb of `fmt.Sprintf`).

Conventions.
* Go strings are Lean strings and Go's `len` is the UTF-8 byte size.  Byte
  sequences that are not valid UTF-8 have no counterpart here; as a query value
  such a sequence is rejected by `strconv.Atoi`, and the handler never builds one.
* Go's `int` is modelled by `Int`.  The only arithmetic the handler performs is
  on `headersLen`, which starts in `[0, 1000]` and is decremented by at most
  `45 + 868` per pass, so no operation comes near the 64-bit range.
* Ranging over the Go map `sampleHeaders` visits the entries in an unspecified
  order that may change from one `range` statement to the next.  The handler
  therefore receives an `orders : Nat → List (String × String)` argument: pass
  number `i` of the padding loop visits the list `orders i`.  Legitimate
  orders are permutations of `sampleHeaders` (`PoolOrders`).
* The padding loop `for headersLen > 0` is modelled with fuel; the handler
  returns `none` only when the fuel is exhausted while the loop is still live.
* Logging is not modelled and `http.ResponseWriter.Write` is assumed not to fail.
-/

namespace HttpServerPing

/-! ## Constants -/

def defaultWaitTime : Int := 0
def defaultHeadersLength : Int := 400
def defaultBodyLength : Int := 400

/-- The map literal `sampleHeaders`, listed in source order. -/
def sampleHeaders : List (String × String) :=
  [ ("ETag", "489bbe95-4221-49a8-90c9-0050ffe752b5"),
    ("X-Config-Id", "87428fc522803d31065e7bce3cf03fe475096631e5e07bbd7a0fde60c4cf25c7"),
    ("X-Device-Id", "123456"),
    ("X-Server-Pool", "my-pool.server.pauloavelar.com"),
    ("X-Random-Seed", "AKQUW9912X"),
    ("Cache-Control", "no-cache"),
    ("X-Custom-Header", "custom-value"),
    ("X-Request-ID", "ABCDEFGHIJKLMNOPQRSTUV"),
    ("X-Forwarded-For", "192.168.1.1"),
    ("X-Forwarded-Host", "pauloavelar.com"),
    ("X-Random-Date", "Mon, 02 Jan 2006 15:04:05 MST"),
    ("Server", "Apache/2.4.41 (Unix)"),
    ("Set-Cookie", "sessionid=123456789; Path=/; Secure; HttpOnly"),
    ("X-Content-Type-Options", "nosniff"),
    ("X-Frame-Options", "DENY"),
    ("X-Powered-By", "PHP/7.4.9"),
    ("X-XSS-Protection", "1; mode=block"),
    ("X-Custom-Header-1", "custom_value=1"),
    ("X-Custom-Header-2", "custom_value=2"),
    ("X-Custom-Header-3", "custom_value=3"),
    ("X-Custom-Header-4", "custom_value=4"),
    ("X-Custom-Header-5", "custom_value=5"),
    ("X-Custom-Header-6", "custom_value=6"),
    ("X-Custom-Header-7", "custom_value=7"),
    ("X-Custom-Header-8", "custom_value=8"),
    ("X-Custom-Header-9", "custom_value=9"),
    ("X-Custom-Header-0", "custom_value=0") ]

/-! ## Standard library operations used by the handler -/

/-- Go's builtin `len` on a string: the number of bytes. -/
def goLen (s : String) : Nat := s.utf8ByteSize

/-- Go's `url.Values`, a `map[string][]string`, as an association list read
through `List.lookup`. -/
abbrev Values := List (String × List String)

/-- The method `url.Values.Has`: whether the key is set. -/
def Values.Has (v : Values) (key : String) : Bool := (v.lookup key).isSome

/-- The method `url.Values.Get`: the first value of the key, or the empty
string when there is none. -/
def Values.Get (v : Values) (key : String) : String :=
  match v.lookup key with
  | some (x :: _) => x
  | _ => ""

/-- The digit loop of `strconv.Atoi`: the value of a run of decimal digits,
`none` as soon as a character is not a digit. -/
def atoiDigits : List Char → Nat → Option Nat
  | [], n => some n
  | ch :: rest, n =>
    if 48 ≤ ch.toNat ∧ ch.toNat ≤ 57 then atoiDigits rest (n * 10 + (ch.toNat - 48)) else none

/-- Go's `strconv.Atoi` for a 64-bit `int`: an optional sign followed by at
least one decimal digit, rejected when the value does not fit the type. -/
def atoi (s : String) : Option Int :=
  match s.toList with
  | [] => none
  | c :: cs =>
    let neg : Bool := c.toNat = 45
    let ds : List Char := if c.toNat = 45 ∨ c.toNat = 43 then cs else c :: cs
    match ds with
    | [] => none
    | d :: rest =>
      match atoiDigits (d :: rest) 0 with
      | none => none
      | some n =>
        let v : Int := if neg then -(n : Int) else (n : Int)
        if -(2 : Int) ^ 63 ≤ v ∧ v ≤ (2 : Int) ^ 63 - 1 then some v else none

/-- Go's `strings.Repeat` for a non-negative count. -/
def stringsRepeat (s : String) : Nat → String
  | 0 => ""
  | n + 1 => s ++ stringsRepeat s n

/-- The table `lowerhex` of `strconv`, indexed by the low four bits. -/
def lowerhex (n : Nat) : Char := ("0123456789abcdef".toList).getD (n % 16) '0'

/-- Go's `strconv.IsPrint`.  Code points up to `0xFF` are decided as in the Go
source; above that Go consults Unicode tables, which are supplied by the
parameter `isPrintHigh`. -/
def strconvIsPrint (isPrintHigh : Char → Bool) (r : Char) : Bool :=
  if r.toNat ≤ 255 then
    if 32 ≤ r.toNat ∧ r.toNat < 127 then true
    else if 161 ≤ r.toNat then r.toNat ≠ 173
    else false
  else isPrintHigh r

/-- Go's `appendEscapedRune` for the double quote, neither ASCII-only nor
graphic-only (the mode used by `strconv.Quote`). -/
def appendEscapedRune (isPrintHigh : Char → Bool) (r : Char) : List Char :=
  let n := r.toNat
  if n = 34 ∨ n = 92 then [Char.ofNat 92, r]
  else if strconvIsPrint isPrintHigh r then [r]
  else if n = 7 then [Char.ofNat 92, 'a']
  else if n = 8 then [Char.ofNat 92, 'b']
  else if n = 12 then [Char.ofNat 92, 'f']
  else if n = 10 then [Char.ofNat 92, 'n']
  else if n = 13 then [Char.ofNat 92, 'r']
  else if n = 9 then [Char.ofNat 92, 't']
  else if n = 11 then [Char.ofNat 92, 'v']
  else if n < 32 ∨ n = 127 then [Char.ofNat 92, 'x', lowerhex (n / 16), lowerhex n]
  else if n < 65536 then
    [Char.ofNat 92, 'u', lowerhex (n / 4096), lowerhex (n / 256), lowerhex (n / 16), lowerhex n]
  else
    [Char.ofNat 92, 'U', lowerhex (n / 268435456), lowerhex (n / 16777216),
      lowerhex (n / 1048576), lowerhex (n / 65536), lowerhex (n / 4096), lowerhex (n / 256),
      lowerhex (n / 16), lowerhex n]

/-- Go's `strconv.Quote`, which is what the verb `%q` of `fmt.Sprintf` applies
to a string operand: the escaped runes between two double quotes. -/
def strconvQuote (isPrintHigh : Char → Bool) (s : String) : String :=
  String.mk ([Char.ofNat 34] ++ (s.toList.map (appendEscapedRune isPrintHigh)).flatten
    ++ [Char.ofNat 34])

/-- The predicate `validHeaderFieldByte` of `net/textproto`: the token
characters of RFC 7230. -/
def validHeaderFieldByte (c : Char) : Bool :=
  let n := c.toNat
  (48 ≤ n ∧ n ≤ 57) ∨ (65 ≤ n ∧ n ≤ 90) ∨ (97 ≤ n ∧ n ≤ 122) ∨
    n ∈ [33, 35, 36, 37, 38, 39, 42, 43, 45, 46, 94, 95, 96, 124, 126]

/-- The rewriting loop of `canonicalMIMEHeaderKey`: upper case at the start and
after each dash, lower case elsewhere. -/
def canonicalLoop : Bool → List Char → List Char
  | _, [] => []
  | upper, c :: cs =>
    let c1 : Char :=
      if upper = true ∧ 97 ≤ c.toNat ∧ c.toNat ≤ 122 then Char.ofNat (c.toNat - 32)
      else if upper = false ∧ 65 ≤ c.toNat ∧ c.toNat ≤ 90 then Char.ofNat (c.toNat + 32)
      else c
    c1 :: canonicalLoop (c1.toNat = 45) cs

/-- Go's `textproto.CanonicalMIMEHeaderKey`: a key holding a byte that is not a
token character is returned unchanged, any other key is canonicalised. -/
def canonicalMIMEHeaderKey (s : String) : String :=
  if s.toList.all validHeaderFieldByte then String.mk (canonicalLoop true s.toList) else s

/-- Go's `http.Header`, a `map[string][]string`, as an association list whose
keys are kept distinct by `Header.Set`. -/
abbrev Header := List (String × List String)

/-- The method `http.Header.Set`: the canonical form of the key is bound to the
single value, replacing whatever the key was bound to. -/
def Header.Set (h : Header) (key value : String) : Header :=
  (canonicalMIMEHeaderKey key, [value]) ::
    h.filter (fun e => e.1 ≠ canonicalMIMEHeaderKey key)

/-- The values bound to a header name, looked up the way `http.Header.Get` and
`http.Header.Values` do, by the canonical form of the name. -/
def Header.Values (h : Header) (key : String) : Option (List String) :=
  h.lookup (canonicalMIMEHeaderKey key)

/-- The size of a header set the way the handler accounts for it: the sum of
`len(name) + len(value)` over the headers present. -/
def Header.size (h : Header) : Nat :=
  (h.map (fun e => goLen e.1 + (e.2.map goLen).sum)).sum

/-- The part of an `http.ResponseWriter` that the handler acts on: the header
map, the status code passed to `WriteHeader` and the bytes passed to `Write`. -/
structure ResponseWriter where
  header : Header
  status : Option Nat
  body : String
deriving DecidableEq, Repr

/-- The response writer as the server hands it to the handler. -/
def ResponseWriter.fresh : ResponseWriter := ⟨[], none, ""⟩

/-- The method `WriteHeader`: the first call fixes the status code. -/
def ResponseWriter.WriteHeader (w : ResponseWriter) (code : Nat) : ResponseWriter :=
  match w.status with
  | none => { w with status := some code }
  | some _ => w

/-- The method `Write`: appends to the body, after an implicit
`WriteHeader(200)` when no status has been written. -/
def ResponseWriter.Write (w : ResponseWriter) (data : String) : ResponseWriter :=
  let w1 := w.WriteHeader 200
  { w1 with body := w1.body ++ data }

/-! ## The functions of `cmd/server.go` -/

/-- The function `writeBody`. -/
def writeBody (w : ResponseWriter) (data : String) : ResponseWriter := w.Write data

/-- The function `respondBadRequest`. -/
def respondBadRequest (w : ResponseWriter) : ResponseWriter :=
  writeBody (w.WriteHeader 400) "invalid request params"

/-- The function `parseIntQuery`. -/
def parseIntQuery (query : Values) (name : String) (defaultValue : Int) : Int × Bool :=
  if query.Has name = false then (defaultValue, true)
  else
    match atoi (query.Get name) with
    | none => (0, false)
    | some value => (value, true)

/-- What a run of the handler leaves behind: the response writer, the
durations in milliseconds of the calls to `time.Sleep`, and two ghost values,
the number of completed passes of the padding loop and the final value of the
variable `headersLen` (both `0` when the request is rejected). -/
structure Outcome where
  w : ResponseWriter
  sleeps : List Int
  passes : Nat
  budget : Int
deriving DecidableEq, Repr

/-- The inner loop `for name, value := range sampleHeaders`, visiting the
entries in the given order. -/
def rangeSampleHeaders (order : List (String × String)) (w : ResponseWriter) (headersLen : Int) :
    ResponseWriter × Int :=
  order.foldl
    (fun st e =>
      ({ st.1 with header := Header.Set st.1.header e.1 e.2 },
        st.2 - (goLen e.1 : Int) - (goLen e.2 : Int)))
    (w, headersLen)

/-- The outer loop `for headersLen > 0`; `pass` counts the completed passes. -/
def padLoop (orders : Nat → List (String × String)) :
    Nat → Nat → ResponseWriter → Int → Option (ResponseWriter × Int × Nat)
  | 0, pass, w, headersLen => if headersLen > 0 then none else some (w, headersLen, pass)
  | fuel + 1, pass, w, headersLen =>
    if headersLen > 0 then
      padLoop orders fuel (pass + 1) (rangeSampleHeaders (orders pass) w headersLen).1
        (rangeSampleHeaders (orders pass) w headersLen).2
    else some (w, headersLen, pass)

/-- The `switch` that writes the body. -/
def bodySwitch (isPrintHigh : Char → Bool) (w : ResponseWriter) (bodyLen : Int) : ResponseWriter :=
  if bodyLen = 0 then w
  else if bodyLen = 1 then writeBody w "1"
  else if bodyLen = 2 then writeBody w "12"
  else if bodyLen ≥ 3 ∧ bodyLen < 8 then
    writeBody w ("\"" ++ strconvQuote isPrintHigh (stringsRepeat "3" (bodyLen - 2).toNat) ++ "\"")
  else
    writeBody w
      ("\x7b\"a\":\"" ++ strconvQuote isPrintHigh (stringsRepeat "B" (bodyLen - 8).toNat)
        ++ "\"\x7d")

/-- The handler registered for `/request` once the three parameters have been
accepted: the sleep, the status selection, the padding loop, `WriteHeader` and
the body. -/
def respond (isPrintHigh : Char → Bool) (orders : Nat → List (String × String)) (fuel : Nat)
    (w : ResponseWriter) (waitTime headersLen bodyLen : Int) : Option Outcome :=
  let status : Nat := if bodyLen = 0 then 204 else 200
  let w1 : ResponseWriter :=
    if bodyLen = 0 then w
    else { w with header := Header.Set w.header "Content-Type" "application/json; charset=utf-8" }
  let headersLen1 : Int := if bodyLen = 0 then headersLen else headersLen - 45
  match padLoop orders fuel 0 w1 headersLen1 with
  | none => none
  | some (w2, headersLen2, passes) =>
    some
      { w := bodySwitch isPrintHigh (w2.WriteHeader status) bodyLen
        sleeps := [waitTime]
        passes := passes
        budget := headersLen2 }

/-- The handler registered for `/request` by `buildServer`, run on the parsed
query of the request. -/
def handler (isPrintHigh : Char → Bool) (orders : Nat → List (String × String)) (fuel : Nat)
    (q : Values) : Option Outcome :=
  let w := ResponseWriter.fresh
  let r1 := parseIntQuery q "time" defaultWaitTime
  if r1.2 = false ∨ r1.1 < 0 ∨ r1.1 > 5000 then some ⟨respondBadRequest w, [], 0, 0⟩
  else
    let r2 := parseIntQuery q "headers" defaultHeadersLength
    if r2.2 = false ∨ r2.1 < 0 ∨ r2.1 > 1000 then some ⟨respondBadRequest w, [], 0, 0⟩
    else
      let r3 := parseIntQuery q "body" defaultBodyLength
      if r3.2 = false ∨ r3.1 < 0 ∨ r3.1 > 2000 then some ⟨respondBadRequest w, [], 0, 0⟩
      else respond isPrintHigh orders fuel w r1.1 r2.1 r3.1

/-! ## Vocabulary of the statements -/

/-- The names bound in a header map. -/
def Header.keys (h : Header) : List String := h.map Prod.fst

/-- The entry that `Header.Set` stores for an entry of the pool. -/
def canonEntry (e : String × String) : String × List String :=
  (canonicalMIMEHeaderKey e.1, [e.2])

/-- The pool as a header map: what setting every entry of `sampleHeaders`
on an empty header map amounts to. -/
def canonPool : Header := sampleHeaders.map canonEntry

/-- The header map after the entries of a pass have been set, in order. -/
def setAll (o : List (String × String)) (h : Header) : Header :=
  o.foldl (fun h e => Header.Set h e.1 e.2) h

/-- The amount by which a pass over `o` decrements `headersLen`. -/
def passCost (o : List (String × String)) : Int :=
  (o.map (fun e => (goLen e.1 : Int) + (goLen e.2 : Int))).sum

/-- Legitimate iteration orders: every pass visits a permutation of the pool. -/
def PoolOrders (orders : Nat → List (String × String)) : Prop :=
  ∀ i, (orders i).Perm sampleHeaders

/-- The number of passes the padding loop makes on an initial budget of at
most `1000`. -/
def passesFor (n : Int) : Nat := if n ≤ 0 then 0 else if n ≤ 868 then 1 else 2

/-- The resolved parameters of a request are `t`, `h`, `b` and lie within
their bounds: each of `time`, `headers`, `body` is absent or a decimal integer
accepted by `parseIntQuery`, and the three values pass the handler's checks. -/
def ValidRequest (q : Values) (t h b : Int) : Prop :=
  parseIntQuery q "time" defaultWaitTime = (t, true) ∧ 0 ≤ t ∧ t ≤ 5000 ∧
  parseIntQuery q "headers" defaultHeadersLength = (h, true) ∧ 0 ≤ h ∧ h ≤ 1000 ∧
  parseIntQuery q "body" defaultBodyLength = (b, true) ∧ 0 ≤ b ∧ b ≤ 2000

/-- The header map before the padding loop. -/
def baseHeader (b : Int) : Header :=
  if b = 0 then [] else [("Content-Type", ["application/json; charset=utf-8"])]

/-- The budget with which the padding loop starts. -/
def startBudget (h b : Int) : Int := if b = 0 then h else h - 45

/-- The parameter `name` is present in the query and rejected by the handler:
its value is not accepted by `strconv.Atoi`, or it is an integer outside
`[0, hi]`. -/
def Offending (q : Values) (name : String) (hi : Int) : Prop :=
  q.Has name = true ∧
    (atoi (q.Get name) = none ∨ ∃ v, atoi (q.Get name) = some v ∧ (v < 0 ∨ hi < v))

/-- The size of a header set as the handler budgets it: `len(name) + len(value)`
for every header present, except that `Content-Type` counts for the 45 bytes the
handler subtracts for it. -/
def Header.accountedSize (h : Header) : Nat :=
  (h.map (fun e =>
    if e.1 = "Content-Type" then 45 else goLen e.1 + (e.2.map goLen).sum)).sum

/-- JSON whitespace (RFC 8259): space, horizontal tab, line feed, carriage
return. -/
def jsonWhitespace (c : Char) : Bool :=
  c.toNat = 32 ∨ c.toNat = 9 ∨ c.toNat = 10 ∨ c.toNat = 13

/-- Drops leading JSON whitespace. -/
def skipWhitespace : List Char → List Char
  | [] => []
  | c :: cs => if jsonWhitespace c then skipWhitespace cs else c :: cs

/-- A hexadecimal digit, as used after `\u` in a JSON string. -/
def jsonHexDigit (c : Char) : Bool :=
  (48 ≤ c.toNat ∧ c.toNat ≤ 57) ∨ (65 ≤ c.toNat ∧ c.toNat ≤ 70) ∨ (97 ≤ c.toNat ∧ c.toNat ≤ 102)

/-- Reads the rest of a JSON string (RFC 8259) after its opening quote and
returns what follows the closing quote, or `none` when the string is malformed.
The state is `0` between characters, `1` after a backslash, and `k + 1` while
`k` hexadecimal digits of a `\u` escape are still expected. -/
def jsonStringTail : Nat → List Char → Option (List Char)
  | _, [] => none
  | 0, c :: cs =>
    if c.toNat = 34 then some cs
    else if c.toNat = 92 then jsonStringTail 1 cs
    else if c.toNat < 32 then none
    else jsonStringTail 0 cs
  | 1, c :: cs =>
    if c.toNat ∈ [34, 92, 47, 98, 102, 110, 114, 116] then jsonStringTail 0 cs
    else if c.toNat = 117 then jsonStringTail 5 cs
    else none
  | k + 2, c :: cs =>
    if jsonHexDigit c then jsonStringTail (if k = 0 then 0 else k + 1) cs else none

/-- Reads a JSON string and returns what follows it. -/
def jsonString : List Char → Option (List Char)
  | [] => none
  | c :: cs => if c.toNat = 34 then jsonStringTail 0 cs else none

/-- Reads the character with the given code and returns what follows it. -/
def expectChar (code : Nat) : List Char → Option (List Char)
  | [] => none
  | c :: cs => if c.toNat = code then some cs else none

/-- Whether a text is a JSON object (RFC 8259) with exactly one member whose
value is a JSON string: `{`, a string, `:`, a string, `}`, with optional
whitespace around every token.  The name of the member is not constrained, so
every object with the single member `"a"` and a string value is accepted. -/
def isObjectWithOneStringMember (s : String) : Bool :=
  match expectChar 123 (skipWhitespace s.toList) with
  | none => false
  | some l1 =>
    match jsonString (skipWhitespace l1) with
    | none => false
    | some l2 =>
      match expectChar 58 (skipWhitespace l2) with
      | none => false
      | some l3 =>
        match jsonString (skipWhitespace l3) with
        | none => false
        | some l4 =>
          match expectChar 125 (skipWhitespace l4) with
          | none => false
          | some l5 => (skipWhitespace l5).isEmpty

/-! ## Header maps -/

theorem lookup_filter_ne (h : Header) (c k : String) (hk : k ≠ c) :
    (h.filter (fun e => e.1 ≠ c)).lookup k = h.lookup k := by
  induction h with
  | nil => rfl
  | cons e t ih =>
    obtain ⟨a, b⟩ := e
    by_cases he : a = c
    · subst he
      have hb : (k == a) = false := by simpa using hk
      rw [List.filter_cons_of_neg (by simp), ih]
      simp only [List.lookup, hb]
    · rw [List.filter_cons_of_pos (by simpa using he)]
      by_cases hka : k = a
      · subst hka
        simp [List.lookup]
      · have hb : (k == a) = false := by simpa using hka
        simp only [List.lookup, hb]
        exact ih

theorem Header.lookup_Set (h : Header) (key value k : String) :
    (Header.Set h key value).lookup k =
      if k = canonicalMIMEHeaderKey key then some [value] else h.lookup k := by
  unfold Header.Set
  by_cases hk : k = canonicalMIMEHeaderKey key
  · simp [List.lookup, hk]
  · have : (k == canonicalMIMEHeaderKey key) = false := by simpa using hk
    simp only [List.lookup, this, if_neg hk]
    exact lookup_filter_ne h _ k hk

theorem Header.keys_Set_nodup (h : Header) (key value : String) (hn : h.keys.Nodup) :
    (Header.Set h key value).keys.Nodup := by
  unfold Header.Set Header.keys at *
  rw [List.map_cons, List.nodup_cons]
  constructor
  · intro hmem
    rcases List.mem_map.1 hmem with ⟨e, he, hke⟩
    have := (List.mem_filter.1 he).2
    simp at this
    exact this hke
  · exact (List.filter_sublist h).map Prod.fst |>.nodup hn

theorem mem_of_lookup {l : Header} {k : String} {v : List String} (h : l.lookup k = some v) :
    (k, v) ∈ l := by
  induction l with
  | nil => simp [List.lookup] at h
  | cons e t ih =>
    obtain ⟨a, b⟩ := e
    by_cases hka : k = a
    · subst hka
      simp [List.lookup] at h
      simp [h]
    · have hb : (k == a) = false := by simpa using hka
      simp only [List.lookup, hb] at h
      exact List.mem_cons_of_mem _ (ih h)

theorem lookup_of_mem {l : Header} {k : String} {v : List String} (hn : l.keys.Nodup)
    (h : (k, v) ∈ l) : l.lookup k = some v := by
  induction l with
  | nil => simp at h
  | cons e t ih =>
    obtain ⟨a, b⟩ := e
    unfold Header.keys at hn ih
    rw [List.map_cons, List.nodup_cons] at hn
    by_cases hka : k = a
    · subst hka
      rcases List.mem_cons.1 h with h1 | h1
      · cases h1
        simp [List.lookup]
      · exact absurd (List.mem_map.2 ⟨(k, v), h1, rfl⟩) hn.1
    · have hb : (k == a) = false := by simpa using hka
      simp only [List.lookup, hb]
      rcases List.mem_cons.1 h with h1 | h1
      · cases h1
        exact absurd rfl hka
      · exact ih hn.2 h1

theorem lookup_none_of_not_mem_keys {l : Header} {k : String} (h : k ∉ l.keys) :
    l.lookup k = none := by
  cases hl : l.lookup k with
  | none => rfl
  | some v => exact absurd (List.mem_map.2 ⟨(k, v), mem_of_lookup hl, rfl⟩) h

theorem not_mem_keys_of_lookup_none {l : Header} {k : String} (h : l.lookup k = none) :
    k ∉ l.keys := by
  intro hmem
  rcases List.mem_map.1 hmem with ⟨e, he, hke⟩
  induction l with
  | nil => simp at he
  | cons x t ih =>
    obtain ⟨a, b⟩ := x
    by_cases hka : k = a
    · subst hka
      simp [List.lookup] at h
    · have hb : (k == a) = false := by simpa using hka
      simp only [List.lookup, hb] at h
      rcases List.mem_cons.1 he with h1 | h1
      · subst h1
        exact hka hke.symm
      · exact ih h (List.mem_map.2 ⟨e, h1, hke⟩) h1

/-- Two header maps with distinct keys and the same bindings hold the same
entries, possibly in a different order. -/
theorem perm_of_lookup_eq {l₁ l₂ : Header} (h₁ : l₁.keys.Nodup) (h₂ : l₂.keys.Nodup)
    (h : ∀ k, l₁.lookup k = l₂.lookup k) : l₁.Perm l₂ := by
  refine (List.perm_ext_iff_of_nodup (List.Nodup.of_map _ h₁) (List.Nodup.of_map _ h₂)).2 ?_
  rintro ⟨k, v⟩
  constructor
  · intro hm
    exact mem_of_lookup ((h k).symm.trans (lookup_of_mem h₁ hm) ▸ rfl)
  · intro hm
    exact mem_of_lookup ((h k).trans (lookup_of_mem h₂ hm))

theorem lookup_append (l₁ l₂ : Header) (k : String) :
    (l₁ ++ l₂).lookup k = match l₁.lookup k with
      | some v => some v
      | none => l₂.lookup k := by
  induction l₁ with
  | nil => rfl
  | cons e t ih =>
    obtain ⟨a, b⟩ := e
    by_cases hka : k = a
    · subst hka
      simp [List.lookup]
    · have hb : (k == a) = false := by simpa using hka
      simp only [List.cons_append, List.lookup, hb]
      exact ih

/-! ## One pass over the pool -/

theorem rangeSampleHeaders_eq (o : List (String × String)) (w : ResponseWriter) (n : Int) :
    rangeSampleHeaders o w n = ({ w with header := setAll o w.header }, n - passCost o) := by
  unfold rangeSampleHeaders setAll passCost
  induction o generalizing w n with
  | nil => simp
  | cons e t ih =>
    simp only [List.foldl_cons, List.map_cons, List.sum_cons]
    rw [ih]
    refine Prod.ext rfl ?_
    simp only
    ring

theorem passCost_sampleHeaders : passCost sampleHeaders = 868 := by decide

theorem passCost_perm {o : List (String × String)} (h : o.Perm sampleHeaders) :
    passCost o = 868 := by
  rw [← passCost_sampleHeaders]
  exact (h.map _).sum_eq

theorem canonPool_keys_nodup : canonPool.keys.Nodup := by decide

theorem keys_setAll_nodup (o : List (String × String)) (h : Header) (hn : h.keys.Nodup) :
    (setAll o h).keys.Nodup := by
  unfold setAll
  induction o generalizing h with
  | nil => exact hn
  | cons e t ih => exact ih _ (Header.keys_Set_nodup h e.1 e.2 hn)

theorem lookup_setAll_not_mem (o : List (String × String)) (h : Header) (k : String)
    (hk : k ∉ Header.keys (o.map canonEntry)) : (setAll o h).lookup k = h.lookup k := by
  unfold setAll
  induction o generalizing h with
  | nil => rfl
  | cons e t ih =>
    simp only [List.map_cons, Header.keys, List.mem_cons, not_or] at hk
    rw [List.foldl_cons, ih _ hk.2, Header.lookup_Set]
    exact if_neg hk.1

theorem lookup_setAll_mem (o : List (String × String)) (h : Header) (k : String)
    (v : List String) (hn : (Header.keys (o.map canonEntry)).Nodup)
    (hm : (k, v) ∈ o.map canonEntry) : (setAll o h).lookup k = some v := by
  induction o generalizing h with
  | nil => simp at hm
  | cons e t ih =>
    simp only [List.map_cons, Header.keys, List.nodup_cons] at hn
    rcases List.mem_cons.1 hm with h1 | h1
    · have hk : k ∉ Header.keys (t.map canonEntry) := by
        have : k = (canonEntry e).1 := by rw [← h1]
        rw [this]
        exact hn.1
      have : setAll (e :: t) h = setAll t (Header.Set h e.1 e.2) := rfl
      rw [this, lookup_setAll_not_mem t _ k hk, Header.lookup_Set]
      have h2 : k = canonicalMIMEHeaderKey e.1 := congrArg Prod.fst h1
      have h3 : v = [e.2] := congrArg Prod.snd h1
      rw [if_pos h2, h3]
    · exact ih _ hn.2 h1

/-- A pass over any permutation of the pool binds exactly the pool's entries on
top of what the header map held. -/
theorem lookup_setAll_perm {o : List (String × String)} (hp : o.Perm sampleHeaders) (h : Header)
    (k : String) : (setAll o h).lookup k = (canonPool ++ h).lookup k := by
  have hperm : (o.map canonEntry).Perm canonPool := hp.map canonEntry
  have hn : (Header.keys (o.map canonEntry)).Nodup :=
    ((hperm.map Prod.fst).nodup_iff).2 canonPool_keys_nodup
  rw [lookup_append]
  cases hl : canonPool.lookup k with
  | none =>
    have hk : k ∉ Header.keys (o.map canonEntry) := fun hmem =>
      not_mem_keys_of_lookup_none hl ((hperm.map Prod.fst).mem_iff.1 hmem)
    exact lookup_setAll_not_mem o h k hk
  | some v =>
    exact lookup_setAll_mem o h k v hn (hperm.mem_iff.2 (mem_of_lookup hl))

theorem lookup_canonPool_append_twice (h : Header) (h1 : Header) (k : String)
    (hh : h1.lookup k = (canonPool ++ h).lookup k) :
    (canonPool ++ h1).lookup k = (canonPool ++ h).lookup k := by
  rw [lookup_append] at hh ⊢
  rw [lookup_append]
  cases hl : canonPool.lookup k with
  | none => simpa [hl] using hh
  | some v => rfl

/-! ## The padding loop -/

theorem padLoop_done (orders : Nat → List (String × String)) (fuel pass : Nat)
    (w : ResponseWriter) (n : Int) (hn : n ≤ 0) :
    padLoop orders fuel pass w n = some (w, n, pass) := by
  cases fuel <;> rw [padLoop, if_neg (not_lt.2 hn)]

theorem padLoop_step (orders : Nat → List (String × String)) (fuel pass : Nat)
    (w : ResponseWriter) (n : Int) (hn : 0 < n) (ho : PoolOrders orders) :
    padLoop orders (fuel + 1) pass w n =
      padLoop orders fuel (pass + 1) { w with header := setAll (orders pass) w.header }
        (n - 868) := by
  rw [padLoop, if_pos hn]
  simp only [rangeSampleHeaders_eq, passCost_perm (ho pass)]

/-- The padding loop on a budget of at most `1000`, run with enough fuel and
legitimate orders: it returns, after `passesFor n` passes, with every pass
costing `868`; it leaves the header map alone when the budget is not positive
and otherwise binds the pool's entries on top of it. -/
theorem padLoop_spec (orders : Nat → List (String × String)) (ho : PoolOrders orders)
    (fuel : Nat) (hf : 2 ≤ fuel) (w : ResponseWriter) (n : Int) (hn : n ≤ 1000) :
    ∃ H : Header,
      padLoop orders fuel 0 w n
        = some ({ w with header := H }, n - 868 * (passesFor n : Int), passesFor n) ∧
      (n ≤ 0 → H = w.header) ∧
      (0 < n → (w.header.keys.Nodup → H.keys.Nodup) ∧
        ∀ k, H.lookup k = (canonPool ++ w.header).lookup k) := by
  obtain ⟨f, rfl⟩ : ∃ f, fuel = f + 2 := ⟨fuel - 2, by omega⟩
  by_cases h0 : n ≤ 0
  · refine ⟨w.header, ?_, fun _ => rfl, fun h => absurd h (not_lt.2 h0)⟩
    rw [padLoop_done _ _ _ _ _ h0]
    simp [passesFor, h0]
  · have hpos : 0 < n := not_le.1 h0
    by_cases h1 : n ≤ 868
    · refine ⟨setAll (orders 0) w.header, ?_, fun h => absurd h h0, fun _ => ⟨?_, ?_⟩⟩
      · rw [padLoop_step _ _ _ _ _ hpos ho, padLoop_done _ _ _ _ _ (by omega)]
        simp [passesFor, h0, h1]
      · exact keys_setAll_nodup _ _
      · exact lookup_setAll_perm (ho 0) _
    · refine ⟨setAll (orders 1) (setAll (orders 0) w.header), ?_, fun h => absurd h h0,
        fun _ => ⟨?_, ?_⟩⟩
      · rw [padLoop_step _ _ _ _ _ hpos ho, padLoop_step _ _ _ _ _ (by omega) ho,
          padLoop_done _ _ _ _ _ (by omega)]
        simp only [passesFor, h0, h1, if_false]
        refine congrArg some (Prod.ext rfl (Prod.ext ?_ rfl))
        simp only [Nat.cast_ofNat]
        ring
      · exact fun h => keys_setAll_nodup _ _ (keys_setAll_nodup _ _ h)
      · intro k
        rw [lookup_setAll_perm (ho 1)]
        exact lookup_canonPool_append_twice _ _ k (lookup_setAll_perm (ho 0) _ k)

/-! ## The handler on a valid request -/

theorem handler_valid (p : Char → Bool) (orders : Nat → List (String × String)) (fuel : Nat)
    (q : Values) (t h b : Int) (hv : ValidRequest q t h b) :
    handler p orders fuel q = respond p orders fuel ResponseWriter.fresh t h b := by
  obtain ⟨e1, t0, t1, e2, h0, h1, e3, b0, b1⟩ := hv
  unfold handler
  simp only [e1, e2, e3]
  rw [if_neg (by simp; omega), if_neg (by simp; omega), if_neg (by simp; omega)]

theorem bodySwitch_header (p : Char → Bool) (w : ResponseWriter) (b : Int) :
    (bodySwitch p w b).header = w.header := by
  unfold bodySwitch writeBody ResponseWriter.Write ResponseWriter.WriteHeader
  split_ifs <;> cases w.status <;> rfl

theorem bodySwitch_status (p : Char → Bool) (w : ResponseWriter) (b : Int) (s : Nat)
    (hs : w.status = some s) : (bodySwitch p w b).status = some s := by
  unfold bodySwitch writeBody ResponseWriter.Write ResponseWriter.WriteHeader
  split_ifs <;> simp [hs]

theorem respond_spec (p : Char → Bool) (orders : Nat → List (String × String))
    (ho : PoolOrders orders) (fuel : Nat) (hf : 2 ≤ fuel) (t h b : Int) (hh : h ≤ 1000) :
    ∃ H : Header,
      respond p orders fuel ResponseWriter.fresh t h b
        = some
            { w := bodySwitch p ⟨H, some (if b = 0 then 204 else 200), ""⟩ b
              sleeps := [t]
              passes := passesFor (startBudget h b)
              budget := startBudget h b - 868 * (passesFor (startBudget h b) : Int) } ∧
      (startBudget h b ≤ 0 → H = baseHeader b) ∧
      (0 < startBudget h b →
        H.keys.Nodup ∧ ∀ k, H.lookup k = (canonPool ++ baseHeader b).lookup k) := by
  have hbase : (if b = 0 then ResponseWriter.fresh
      else { ResponseWriter.fresh with
        header := Header.Set ResponseWriter.fresh.header "Content-Type"
          "application/json; charset=utf-8" }) = ⟨baseHeader b, none, ""⟩ := by
    unfold baseHeader
    split_ifs
    · rfl
    · decide
  have hle : startBudget h b ≤ 1000 := by
    unfold startBudget
    split_ifs <;> omega
  obtain ⟨H, hrun, hH0, hH1⟩ := padLoop_spec orders ho fuel hf ⟨baseHeader b, none, ""⟩ _ hle
  refine ⟨H, ?_, hH0, fun hpos => ⟨(hH1 hpos).1 ?_, (hH1 hpos).2⟩⟩
  · unfold respond
    simp only [hbase]
    show (match padLoop orders fuel 0 ⟨baseHeader b, none, ""⟩ (startBudget h b) with
      | none => none
      | some (w2, headersLen2, passes) => _) = _
    rw [hrun]
    rfl
  · unfold baseHeader
    split_ifs <;> decide

theorem handler_spec (p : Char → Bool) (orders : Nat → List (String × String))
    (ho : PoolOrders orders) (fuel : Nat) (hf : 2 ≤ fuel) (q : Values) (t h b : Int)
    (hv : ValidRequest q t h b) :
    ∃ H : Header,
      handler p orders fuel q
        = some
            { w := bodySwitch p ⟨H, some (if b = 0 then 204 else 200), ""⟩ b
              sleeps := [t]
              passes := passesFor (startBudget h b)
              budget := startBudget h b - 868 * (passesFor (startBudget h b) : Int) } ∧
      (startBudget h b ≤ 0 → H = baseHeader b) ∧
      (0 < startBudget h b →
        H.keys.Nodup ∧ ∀ k, H.lookup k = (canonPool ++ baseHeader b).lookup k) := by
  rw [handler_valid p orders fuel q t h b hv]
  exact respond_spec p orders ho fuel hf t h b hv.2.2.2.2.2.1

theorem parseIntQuery_offending (q : Values) (name : String) (d hi : Int)
    (h : Offending q name hi) :
    (parseIntQuery q name d).2 = false ∨ (parseIntQuery q name d).1 < 0 ∨
      (parseIntQuery q name d).1 > hi := by
  obtain ⟨hp, hbad⟩ := h
  unfold parseIntQuery
  rw [if_neg (by simp [hp])]
  rcases hbad with hnone | ⟨v, hv, hr⟩
  · rw [hnone]
    exact Or.inl rfl
  · rw [hv]
    exact Or.inr hr

theorem respondBadRequest_fresh :
    respondBadRequest ResponseWriter.fresh = ⟨[], some 400, "invalid request params"⟩ := by
  decide

/-- C1: for every request whose resolved parameters are all within bounds, the
handler returns and the status code it writes is 204 if and only if `body` is
0, and is 200 otherwise. -/
theorem C1_status_by_body (p : Char → Bool) (orders : Nat → List (String × String))
    (fuel : Nat) (q : Values) (t h b : Int) (ho : PoolOrders orders) (hf : 2 ≤ fuel)
    (hv : ValidRequest q t h b) :
    ∃ out, handler p orders fuel q = some out ∧
      (out.w.status = some 204 ↔ b = 0) ∧ (b ≠ 0 → out.w.status = some 200) := by
  obtain ⟨H, hrun, -, -⟩ := handler_spec p orders ho fuel hf q t h b hv
  refine ⟨_, hrun, ?_, ?_⟩
  · rw [bodySwitch_status p _ b _ rfl]
    by_cases hb : b = 0 <;> simp [hb]
  · intro hb
    rw [bodySwitch_status p _ b _ rfl, if_neg hb]

theorem C1_status_by_body_witness :
    PoolOrders (fun _ => sampleHeaders) ∧ ValidRequest [("body", ["0"])] 0 400 0 ∧
      ∃ out, handler (fun _ => false) (fun _ => sampleHeaders) 2 [("body", ["0"])] = some out ∧
        (out.w.status = some 204 ↔ (0 : Int) = 0) ∧ ((0 : Int) ≠ 0 → out.w.status = some 200) :=
  ⟨fun _ => List.Perm.refl _, by unfold ValidRequest; decide,
    C1_status_by_body (fun _ => false) (fun _ => sampleHeaders) 2 [("body", ["0"])] 0 400 0
      (fun _ => List.Perm.refl _) (by decide) (by unfold ValidRequest; decide)⟩

/-- C2: whenever one of `time`, `headers`, `body` is present and either is not
accepted by `strconv.Atoi` or lies outside its bound, the handler writes status
400 and the body `invalid request params`, sets no header, writes nothing else
and neither sleeps nor enters the padding loop. -/
theorem C2_bad_request (p : Char → Bool) (orders : Nat → List (String × String)) (fuel : Nat)
    (q : Values)
    (h : Offending q "time" 5000 ∨ Offending q "headers" 1000 ∨ Offending q "body" 2000) :
    handler p orders fuel q
      = some ⟨⟨[], some 400, "invalid request params"⟩, [], 0, 0⟩ := by
  unfold handler
  simp only [respondBadRequest_fresh]
  by_cases h1 : (parseIntQuery q "time" defaultWaitTime).2 = false ∨
      (parseIntQuery q "time" defaultWaitTime).1 < 0 ∨
      (parseIntQuery q "time" defaultWaitTime).1 > 5000
  · rw [if_pos h1]
  · rw [if_neg h1]
    by_cases h2 : (parseIntQuery q "headers" defaultHeadersLength).2 = false ∨
        (parseIntQuery q "headers" defaultHeadersLength).1 < 0 ∨
        (parseIntQuery q "headers" defaultHeadersLength).1 > 1000
    · rw [if_pos h2]
    · rw [if_neg h2]
      by_cases h3 : (parseIntQuery q "body" defaultBodyLength).2 = false ∨
          (parseIntQuery q "body" defaultBodyLength).1 < 0 ∨
          (parseIntQuery q "body" defaultBodyLength).1 > 2000
      · rw [if_pos h3]
      · rcases h with h | h | h
        · exact absurd (parseIntQuery_offending q _ _ _ h) h1
        · exact absurd (parseIntQuery_offending q _ _ _ h) h2
        · exact absurd (parseIntQuery_offending q _ _ _ h) h3

theorem C2_bad_request_witness :
    (Offending [("time", ["12"]), ("body", ["2001"])] "time" 5000 ∨
      Offending [("time", ["12"]), ("body", ["2001"])] "headers" 1000 ∨
      Offending [("time", ["12"]), ("body", ["2001"])] "body" 2000) ∧
    handler (fun _ => false) (fun _ => sampleHeaders) 0 [("time", ["12"]), ("body", ["2001"])]
      = some ⟨⟨[], some 400, "invalid request params"⟩, [], 0, 0⟩ :=
  ⟨Or.inr (Or.inr ⟨by decide, Or.inr ⟨2001, by decide, Or.inr (by decide)⟩⟩),
    C2_bad_request (fun _ => false) (fun _ => sampleHeaders) 0
      [("time", ["12"]), ("body", ["2001"])]
      (Or.inr (Or.inr ⟨by decide, Or.inr ⟨2001, by decide, Or.inr (by decide)⟩⟩))⟩

theorem parseIntQuery_absent (q : Values) (name : String) (d : Int) (h : q.Has name = false) :
    parseIntQuery q name d = (d, true) := by
  unfold parseIntQuery
  rw [if_pos h]

theorem parseIntQuery_cons_ne (q : Values) (key name : String) (vs : List String) (d : Int)
    (h : name ≠ key) : parseIntQuery ((key, vs) :: q) name d = parseIntQuery q name d := by
  have hb : (name == key) = false := by simpa using h
  unfold parseIntQuery Values.Has Values.Get
  simp only [List.lookup, hb]

theorem parseIntQuery_cons_eq (q : Values) (name v : String) (d n : Int)
    (h : atoi v = some n) : parseIntQuery ((name, [v]) :: q) name d = (n, true) := by
  unfold parseIntQuery Values.Has Values.Get
  simp [List.lookup, h]

/-- C3: an absent parameter behaves exactly as if it had been supplied with its
default (`time=0`, `headers=400`, `body=400`): `parseIntQuery` returns the
default with `true` for an absent name, adding an absent parameter with its
default to the query leaves the whole outcome of the handler unchanged, and the
empty query gives the same outcome as `time=0&headers=400&body=400`. -/
theorem C3_defaults (p : Char → Bool) (orders : Nat → List (String × String)) (fuel : Nat)
    (q : Values) :
    (∀ name d, q.Has name = false → parseIntQuery q name d = (d, true)) ∧
    (q.Has "time" = false →
      handler p orders fuel (("time", ["0"]) :: q) = handler p orders fuel q) ∧
    (q.Has "headers" = false →
      handler p orders fuel (("headers", ["400"]) :: q) = handler p orders fuel q) ∧
    (q.Has "body" = false →
      handler p orders fuel (("body", ["400"]) :: q) = handler p orders fuel q) ∧
    handler p orders fuel [] =
      handler p orders fuel [("time", ["0"]), ("headers", ["400"]), ("body", ["400"])] := by
  refine ⟨fun name d h => parseIntQuery_absent q name d h, ?_, ?_, ?_, ?_⟩
  · intro h
    unfold handler
    rw [parseIntQuery_cons_eq q "time" "0" defaultWaitTime 0 (by decide),
      parseIntQuery_cons_ne q "time" "headers" _ _ (by decide),
      parseIntQuery_cons_ne q "time" "body" _ _ (by decide),
      parseIntQuery_absent q "time" defaultWaitTime h]
    rfl
  · intro h
    unfold handler
    rw [parseIntQuery_cons_eq q "headers" "400" defaultHeadersLength 400 (by decide),
      parseIntQuery_cons_ne q "headers" "time" _ _ (by decide),
      parseIntQuery_cons_ne q "headers" "body" _ _ (by decide),
      parseIntQuery_absent q "headers" defaultHeadersLength h]
    rfl
  · intro h
    unfold handler
    rw [parseIntQuery_cons_eq q "body" "400" defaultBodyLength 400 (by decide),
      parseIntQuery_cons_ne q "body" "time" _ _ (by decide),
      parseIntQuery_cons_ne q "body" "headers" _ _ (by decide),
      parseIntQuery_absent q "body" defaultBodyLength h]
    rfl
  · unfold handler
    have e1 : parseIntQuery [("time", ["0"]), ("headers", ["400"]), ("body", ["400"])] "time"
        defaultWaitTime = parseIntQuery [] "time" defaultWaitTime := by decide
    have e2 : parseIntQuery [("time", ["0"]), ("headers", ["400"]), ("body", ["400"])] "headers"
        defaultHeadersLength = parseIntQuery [] "headers" defaultHeadersLength := by decide
    have e3 : parseIntQuery [("time", ["0"]), ("headers", ["400"]), ("body", ["400"])] "body"
        defaultBodyLength = parseIntQuery [] "body" defaultBodyLength := by decide
    rw [e1, e2, e3]

theorem C3_defaults_witness :
    Values.Has [("body", ["5"])] "headers" = false ∧
      handler (fun _ => false) (fun _ => sampleHeaders) 2 [("headers", ["400"]), ("body", ["5"])]
        = handler (fun _ => false) (fun _ => sampleHeaders) 2 [("body", ["5"])] :=
  ⟨by decide,
    (C3_defaults (fun _ => false) (fun _ => sampleHeaders) 2 [("body", ["5"])]).2.2.1
      (by decide)⟩

theorem stringsRepeat_toList (c : Char) (n : Nat) :
    (stringsRepeat (String.mk [c]) n).toList = List.replicate n c := by
  induction n with
  | zero => rfl
  | succ k ih =>
    show (String.mk [c] ++ stringsRepeat (String.mk [c]) k).toList = _
    rw [String.toList, String.data_append]
    rw [String.toList] at ih
    rw [ih]
    rfl

/-- Quoting a run of a character that `appendEscapedRune` leaves alone puts the
run between two double quotes and changes nothing else. -/
theorem strconvQuote_run (p : Char → Bool) (c : Char) (n : Nat)
    (hc : appendEscapedRune p c = [c]) :
    strconvQuote p (stringsRepeat (String.mk [c]) n)
      = String.mk (Char.ofNat 34 :: (List.replicate n c ++ [Char.ofNat 34])) := by
  unfold strconvQuote
  rw [stringsRepeat_toList]
  congr 1
  have : ((List.replicate n c).map (appendEscapedRune p)).flatten = List.replicate n c := by
    induction n with
    | zero => rfl
    | succ k ih =>
      rw [List.replicate_succ, List.map_cons, List.flatten_cons, ih, hc]
      rfl
  rw [this]
  rfl

theorem appendEscapedRune_three (p : Char → Bool) : appendEscapedRune p '3' = ['3'] := rfl

theorem appendEscapedRune_B (p : Char → Bool) : appendEscapedRune p 'B' = ['B'] := rfl

theorem bodySwitch_body (p : Char → Bool) (H : Header) (s : Nat) (b : Int) :
    (bodySwitch p ⟨H, some s, ""⟩ b).body =
      if b = 0 then ""
      else if b = 1 then "1"
      else if b = 2 then "12"
      else if 3 ≤ b ∧ b < 8 then
        "\"" ++ strconvQuote p (stringsRepeat "3" (b - 2).toNat) ++ "\""
      else "\x7b\"a\":\"" ++ strconvQuote p (stringsRepeat "B" (b - 8).toNat) ++ "\"\x7d" := by
  unfold bodySwitch writeBody ResponseWriter.Write ResponseWriter.WriteHeader
  split_ifs <;> simp

/-- C4: for every valid request the body written depends on `body` alone:
nothing for 0, `1` for 1, `12` for 2, for 3 to 7 a double quote, the `%q`
quoting of a run of `body - 2` characters `3` and a double quote, and from 8 on
the text `{"a":"`, the `%q` quoting of a run of `body - 8` characters `B` and
the text `"}`.  The quoting only wraps the run in double quotes, so `body = 5`
gives the seven bytes `""333""` and `body = 10` gives `{"a":""BB""}`. -/
theorem C4_body_text (p : Char → Bool) (orders : Nat → List (String × String)) (fuel : Nat)
    (q : Values) (t h b : Int) (ho : PoolOrders orders) (hf : 2 ≤ fuel)
    (hv : ValidRequest q t h b) :
    ∃ out, handler p orders fuel q = some out ∧
      (b = 0 → out.w.body = "") ∧
      (b = 1 → out.w.body = "1") ∧
      (b = 2 → out.w.body = "12") ∧
      (3 ≤ b ∧ b ≤ 7 →
        out.w.body = "\"" ++ strconvQuote p (stringsRepeat "3" (b - 2).toNat) ++ "\"" ∧
        out.w.body.toList
          = [Char.ofNat 34, Char.ofNat 34] ++ List.replicate (b - 2).toNat '3'
              ++ [Char.ofNat 34, Char.ofNat 34]) ∧
      (8 ≤ b ∧ b ≤ 2000 →
        out.w.body
          = "\x7b\"a\":\"" ++ strconvQuote p (stringsRepeat "B" (b - 8).toNat) ++ "\"\x7d" ∧
        out.w.body.toList
          = "\x7b\"a\":\"\"".toList ++ List.replicate (b - 8).toNat 'B' ++ "\"\"\x7d".toList) ∧
      (b = 5 → out.w.body = "\"\"333\"\"" ∧ goLen out.w.body = 7) ∧
      (b = 10 → out.w.body = "\x7b\"a\":\"\"BB\"\"\x7d") := by
  obtain ⟨H, hrun, -, -⟩ := handler_spec p orders ho fuel hf q t h b hv
  refine ⟨_, hrun, ?_, ?_, ?_, ?_, ?_, ?_, ?_⟩
  · intro hb
    rw [bodySwitch_body, if_pos hb]
  · intro hb
    subst hb
    rw [bodySwitch_body]
    rfl
  · intro hb
    subst hb
    rw [bodySwitch_body]
    rfl
  · intro hb
    have e : (bodySwitch p ⟨H, some (if b = 0 then 204 else 200), ""⟩ b).body
        = "\"" ++ strconvQuote p (stringsRepeat "3" (b - 2).toNat) ++ "\"" := by
      rw [bodySwitch_body, if_neg (by omega), if_neg (by omega), if_neg (by omega),
        if_pos (by omega)]
    refine ⟨e, ?_⟩
    show (bodySwitch p ⟨H, some (if b = 0 then 204 else 200), ""⟩ b).body.toList = _
    rw [e]
    have hq := strconvQuote_run p '3' (b - 2).toNat (appendEscapedRune_three p)
    have hs : (String.mk ['3']) = "3" := rfl
    rw [hs] at hq
    rw [hq]
    simp [String.toList, String.data_append]
  · intro hb
    have e : (bodySwitch p ⟨H, some (if b = 0 then 204 else 200), ""⟩ b).body
        = "\x7b\"a\":\"" ++ strconvQuote p (stringsRepeat "B" (b - 8).toNat) ++ "\"\x7d" := by
      rw [bodySwitch_body, if_neg (by omega), if_neg (by omega), if_neg (by omega),
        if_neg (by omega)]
    refine ⟨e, ?_⟩
    show (bodySwitch p ⟨H, some (if b = 0 then 204 else 200), ""⟩ b).body.toList = _
    rw [e]
    have hq := strconvQuote_run p 'B' (b - 8).toNat (appendEscapedRune_B p)
    have hs : (String.mk ['B']) = "B" := rfl
    rw [hs] at hq
    rw [hq]
    simp [String.toList, String.data_append]
  · intro hb
    subst hb
    rw [bodySwitch_body]
    exact ⟨rfl, rfl⟩
  · intro hb
    subst hb
    rw [bodySwitch_body]
    rfl

theorem C4_body_text_witness :
    PoolOrders (fun _ => sampleHeaders) ∧ ValidRequest [("body", ["5"])] 0 400 5 ∧
      ∃ out, handler (fun _ => false) (fun _ => sampleHeaders) 2 [("body", ["5"])] = some out ∧
        out.w.body = "\"\"333\"\"" ∧ goLen out.w.body = 7 := by
  refine ⟨fun _ => List.Perm.refl _, by unfold ValidRequest; decide, ?_⟩
  obtain ⟨out, hrun, -, -, -, -, -, h5, -⟩ :=
    C4_body_text (fun _ => false) (fun _ => sampleHeaders) 2 [("body", ["5"])] 0 400 5
      (fun _ => List.Perm.refl _) (by decide) (by unfold ValidRequest; decide)
  exact ⟨out, hrun, h5 rfl⟩

theorem canonical_contentType : canonicalMIMEHeaderKey "Content-Type" = "Content-Type" := by
  decide

theorem canonPool_lookup_contentType : canonPool.lookup "Content-Type" = none := by decide

theorem baseHeader_keys_nodup (b : Int) : (baseHeader b).keys.Nodup := by
  unfold baseHeader
  split_ifs <;> decide

theorem baseHeader_lookup_contentType (b : Int) :
    (baseHeader b).lookup "Content-Type" =
      if b = 0 then none else some ["application/json; charset=utf-8"] := by
  unfold baseHeader
  split_ifs <;> rfl

/-- The binding of `Content-Type` in the header map of a valid request. -/
theorem lookup_contentType (H : Header) (h b : Int)
    (h0 : startBudget h b ≤ 0 → H = baseHeader b)
    (h1 : 0 < startBudget h b → H.keys.Nodup ∧
      ∀ k, H.lookup k = (canonPool ++ baseHeader b).lookup k) :
    H.lookup "Content-Type" =
      if b = 0 then none else some ["application/json; charset=utf-8"] := by
  by_cases hs : startBudget h b ≤ 0
  · rw [h0 hs, baseHeader_lookup_contentType]
  · rw [(h1 (not_le.1 hs)).2, lookup_append, canonPool_lookup_contentType,
      baseHeader_lookup_contentType]

/-- C5: in the response to a valid request the header map binds `Content-Type`
if and only if `body > 0`, the value then being exactly
`application/json; charset=utf-8`; no entry of the sample header pool is stored
under the name `Content-Type`. -/
theorem C5_content_type (p : Char → Bool) (orders : Nat → List (String × String)) (fuel : Nat)
    (q : Values) (t h b : Int) (ho : PoolOrders orders) (hf : 2 ≤ fuel)
    (hv : ValidRequest q t h b) :
    ∃ out, handler p orders fuel q = some out ∧
      ((Header.Values out.w.header "Content-Type").isSome = true ↔ 0 < b) ∧
      (0 < b →
        Header.Values out.w.header "Content-Type" = some ["application/json; charset=utf-8"]) ∧
      (∀ e ∈ sampleHeaders,
        canonicalMIMEHeaderKey e.1 ≠ canonicalMIMEHeaderKey "Content-Type") := by
  obtain ⟨H, hrun, h0, h1⟩ := handler_spec p orders ho fuel hf q t h b hv
  have hb0 : 0 ≤ b := hv.2.2.2.2.2.2.2.1
  have hl := lookup_contentType H h b h0 h1
  refine ⟨_, hrun, ?_, ?_, by decide⟩
  · unfold Header.Values
    rw [bodySwitch_header, canonical_contentType, hl]
    by_cases hb : b = 0
    · simp [hb]
    · simp only [if_neg hb, Option.isSome_some, true_iff]
      omega
  · intro hb
    unfold Header.Values
    rw [bodySwitch_header, canonical_contentType, hl, if_neg (by omega)]

theorem C5_content_type_witness :
    PoolOrders (fun _ => sampleHeaders) ∧ ValidRequest [] 0 400 400 ∧
      ∃ out, handler (fun _ => false) (fun _ => sampleHeaders) 2 [] = some out ∧
        Header.Values out.w.header "Content-Type" = some ["application/json; charset=utf-8"] := by
  refine ⟨fun _ => List.Perm.refl _, by unfold ValidRequest; decide, ?_⟩
  obtain ⟨out, hrun, -, hct, -⟩ :=
    C5_content_type (fun _ => false) (fun _ => sampleHeaders) 2 [] 0 400 400
      (fun _ => List.Perm.refl _) (by decide) (by unfold ValidRequest; decide)
  exact ⟨out, hrun, hct (by decide)⟩

/-- The header map of a valid request holds the same entries as the base header
map, extended with the pool when the starting budget is positive. -/
theorem header_perm (H : Header) (h b : Int)
    (h0 : startBudget h b ≤ 0 → H = baseHeader b)
    (h1 : 0 < startBudget h b → H.keys.Nodup ∧
      ∀ k, H.lookup k = (canonPool ++ baseHeader b).lookup k) :
    H.Perm (if startBudget h b ≤ 0 then baseHeader b else canonPool ++ baseHeader b) := by
  by_cases hs : startBudget h b ≤ 0
  · rw [if_pos hs, h0 hs]
  · rw [if_neg hs]
    refine perm_of_lookup_eq (h1 (not_le.1 hs)).1 ?_ (h1 (not_le.1 hs)).2
    unfold baseHeader
    split_ifs <;> decide

/-- C6: for a valid request, two runs of the handler whose passes iterate the
pool in any two families of orders (the orders may differ from pass to pass and
from run to run) give the same status code, the same header map as a
name-to-value mapping (the same bindings, hence the same entries up to order),
the same body and the same delay, after the same number of passes. -/
theorem C6_order_independent (p : Char → Bool) (orders₁ orders₂ : Nat → List (String × String))
    (fuel₁ fuel₂ : Nat) (q : Values) (t h b : Int) (ho₁ : PoolOrders orders₁)
    (ho₂ : PoolOrders orders₂) (hf₁ : 2 ≤ fuel₁) (hf₂ : 2 ≤ fuel₂)
    (hv : ValidRequest q t h b) :
    ∃ out₁ out₂, handler p orders₁ fuel₁ q = some out₁ ∧ handler p orders₂ fuel₂ q = some out₂ ∧
      out₁.w.status = out₂.w.status ∧
      (∀ k, out₁.w.header.lookup k = out₂.w.header.lookup k) ∧
      (∀ name, Header.Values out₁.w.header name = Header.Values out₂.w.header name) ∧
      out₁.w.header.Perm out₂.w.header ∧
      out₁.w.body = out₂.w.body ∧
      out₁.sleeps = out₂.sleeps ∧
      out₁.passes = out₂.passes ∧
      out₁.budget = out₂.budget := by
  obtain ⟨H₁, hrun₁, h0₁, h1₁⟩ := handler_spec p orders₁ ho₁ fuel₁ hf₁ q t h b hv
  obtain ⟨H₂, hrun₂, h0₂, h1₂⟩ := handler_spec p orders₂ ho₂ fuel₂ hf₂ q t h b hv
  have hlook : ∀ k, H₁.lookup k = H₂.lookup k := by
    intro k
    by_cases hs : startBudget h b ≤ 0
    · rw [h0₁ hs, h0₂ hs]
    · rw [(h1₁ (not_le.1 hs)).2, (h1₂ (not_le.1 hs)).2]
  refine ⟨_, _, hrun₁, hrun₂, ?_, ?_, ?_, ?_, ?_, rfl, rfl, rfl⟩
  · rw [bodySwitch_status p _ b _ rfl, bodySwitch_status p _ b _ rfl]
  · intro k
    rw [bodySwitch_header, bodySwitch_header]
    exact hlook k
  · intro name
    unfold Header.Values
    rw [bodySwitch_header, bodySwitch_header]
    exact hlook _
  · rw [bodySwitch_header, bodySwitch_header]
    exact (header_perm H₁ h b h0₁ h1₁).trans (header_perm H₂ h b h0₂ h1₂).symm
  · rw [bodySwitch_body, bodySwitch_body]

theorem C6_order_independent_witness :
    PoolOrders (fun _ => sampleHeaders) ∧ PoolOrders (fun _ => sampleHeaders.reverse) ∧
      ValidRequest [("headers", ["1000"])] 0 1000 400 ∧
      ∃ out₁ out₂,
        handler (fun _ => false) (fun _ => sampleHeaders) 2 [("headers", ["1000"])] = some out₁ ∧
        handler (fun _ => false) (fun _ => sampleHeaders.reverse) 3 [("headers", ["1000"])]
          = some out₂ ∧
        out₁.w.header.Perm out₂.w.header ∧ out₁.w.body = out₂.w.body ∧
        out₁.passes = out₂.passes := by
  refine ⟨fun _ => List.Perm.refl _, fun _ => List.reverse_perm _,
    by unfold ValidRequest; decide, ?_⟩
  obtain ⟨o₁, o₂, r₁, r₂, -, -, -, hp, hb, -, hn, -⟩ :=
    C6_order_independent (fun _ => false) (fun _ => sampleHeaders)
      (fun _ => sampleHeaders.reverse) 2 3 [("headers", ["1000"])] 0 1000 400
      (fun _ => List.Perm.refl _) (fun _ => List.reverse_perm _) (by decide) (by decide)
      (by unfold ValidRequest; decide)
  exact ⟨o₁, o₂, r₁, r₂, hp, hb, hn⟩

theorem startBudget_eq (h b : Int) (hb : 0 ≤ b) :
    startBudget h b = if 0 < b then h - 45 else h := by
  unfold startBudget
  by_cases h0 : b = 0
  · simp [h0]
  · rw [if_neg h0, if_pos (by omega)]

theorem size_append (l₁ l₂ : Header) : Header.size (l₁ ++ l₂) = l₁.size + l₂.size := by
  unfold Header.size
  rw [List.map_append, List.sum_append]

theorem accountedSize_append (l₁ l₂ : Header) :
    Header.accountedSize (l₁ ++ l₂) = l₁.accountedSize + l₂.accountedSize := by
  unfold Header.accountedSize
  rw [List.map_append, List.sum_append]

set_option maxRecDepth 8000 in
theorem canonPool_size : canonPool.size = 868 := by decide

set_option maxRecDepth 8000 in
theorem canonPool_accountedSize : canonPool.accountedSize = 868 := by decide

/-- The two sizes of the header map of a valid request. -/
theorem header_sizes (H : Header) (h b : Int)
    (h0 : startBudget h b ≤ 0 → H = baseHeader b)
    (h1 : 0 < startBudget h b → H.keys.Nodup ∧
      ∀ k, H.lookup k = (canonPool ++ baseHeader b).lookup k) :
    H.size = (if startBudget h b ≤ 0 then 0 else 868) + (if b = 0 then 0 else 43) ∧
    H.accountedSize = (if startBudget h b ≤ 0 then 0 else 868) + (if b = 0 then 0 else 45) := by
  have hp := header_perm H h b h0 h1
  have e1 : H.size = Header.size
      (if startBudget h b ≤ 0 then baseHeader b else canonPool ++ baseHeader b) :=
    (hp.map _).sum_eq
  have e2 : H.accountedSize = Header.accountedSize
      (if startBudget h b ≤ 0 then baseHeader b else canonPool ++ baseHeader b) :=
    (hp.map _).sum_eq
  rw [e1, e2]
  unfold baseHeader
  split_ifs
  · exact ⟨rfl, rfl⟩
  · exact ⟨rfl, rfl⟩
  · rw [List.append_nil]
    exact ⟨canonPool_size, canonPool_accountedSize⟩
  · rw [size_append, accountedSize_append, canonPool_size, canonPool_accountedSize]
    exact ⟨rfl, rfl⟩

/-- C7: the code at the request `headers=1000` (default `body`), whatever the
iteration orders: the loop makes two passes and ends on a budget of `-781`, yet
the header map holds `Content-Type` and the 27 pool entries once each, which is
913 bytes with `Content-Type` counted at 45, fewer than the 1000 requested. -/
theorem C7_undershoot_headers_1000 (p : Char → Bool) (orders : Nat → List (String × String))
    (fuel : Nat) (ho : PoolOrders orders) (hf : 2 ≤ fuel) :
    ∃ out, handler p orders fuel [("headers", ["1000"])] = some out ∧
      out.w.status = some 200 ∧
      out.passes = 2 ∧ out.budget = -781 ∧
      out.w.header.length = 28 ∧
      out.w.header.accountedSize = 913 ∧
      (out.w.header.accountedSize : Int) < 1000 := by
  have hv : ValidRequest [("headers", ["1000"])] 0 1000 400 := by unfold ValidRequest; decide
  obtain ⟨H, hrun, h0, h1⟩ := handler_spec p orders ho fuel hf _ 0 1000 400 hv
  have hs := (header_sizes H 1000 400 h0 h1).2
  have hp := (header_perm H 1000 400 h0 h1).length_eq
  have e : startBudget 1000 400 = 955 := by decide
  rw [e] at hs hp hrun
  refine ⟨_, hrun, ?_, ?_, ?_, ?_, ?_, ?_⟩
  · rw [bodySwitch_status p _ _ _ rfl]
    rfl
  · show passesFor 955 = 2
    decide
  · show (955 : Int) - 868 * (passesFor 955 : Int) = -781
    decide
  · rw [bodySwitch_header, hp]
    decide
  · rw [bodySwitch_header, hs]
    decide
  · rw [bodySwitch_header, hs]
    decide

theorem C7_undershoot_headers_1000_witness :
    PoolOrders (fun _ => sampleHeaders) ∧
      ∃ out, handler (fun _ => false) (fun _ => sampleHeaders) 2 [("headers", ["1000"])]
          = some out ∧ out.w.header.accountedSize = 913 := by
  refine ⟨fun _ => List.Perm.refl _, ?_⟩
  obtain ⟨out, hrun, -, -, -, -, hs, -⟩ :=
    C7_undershoot_headers_1000 (fun _ => false) (fun _ => sampleHeaders) 2
      (fun _ => List.Perm.refl _) (by decide)
  exact ⟨out, hrun, hs⟩

/-- C8: for every valid request the size of the header map, the sum of
`len(name) + len(value)` over the headers present, exceeds the requested
`headers` value by at most 868, the cost of one full pass over the pool; the
same holds when `Content-Type` is counted at its cost of 45. -/
theorem C8_bounded_overshoot (p : Char → Bool) (orders : Nat → List (String × String))
    (fuel : Nat) (q : Values) (t h b : Int) (ho : PoolOrders orders) (hf : 2 ≤ fuel)
    (hv : ValidRequest q t h b) :
    ∃ out, handler p orders fuel q = some out ∧
      (out.w.header.size : Int) - h ≤ 868 ∧
      (out.w.header.accountedSize : Int) - h ≤ 868 ∧
      passCost sampleHeaders = 868 := by
  obtain ⟨H, hrun, h0, h1⟩ := handler_spec p orders ho fuel hf q t h b hv
  obtain ⟨hs, ha⟩ := header_sizes H h b h0 h1
  have hh0 : 0 ≤ h := hv.2.2.2.2.1
  have hb0 : 0 ≤ b := hv.2.2.2.2.2.2.2.1
  have hsb := startBudget_eq h b hb0
  refine ⟨_, hrun, ?_, ?_, passCost_sampleHeaders⟩
  · rw [bodySwitch_header, hs]
    by_cases hb : b = 0
    · subst hb
      simp only [lt_self_iff_false, if_false] at hsb
      rw [hsb]
      split_ifs <;> simp <;> omega
    · rw [if_pos (by omega)] at hsb
      rw [hsb]
      split_ifs <;> simp <;> omega
  · rw [bodySwitch_header, ha]
    by_cases hb : b = 0
    · subst hb
      simp only [lt_self_iff_false, if_false] at hsb
      rw [hsb]
      split_ifs <;> simp <;> omega
    · rw [if_pos (by omega)] at hsb
      rw [hsb]
      split_ifs <;> simp <;> omega

theorem C8_bounded_overshoot_witness :
    PoolOrders (fun _ => sampleHeaders) ∧ ValidRequest [("headers", ["1"]), ("body", ["0"])] 0 1 0 ∧
      ∃ out,
        handler (fun _ => false) (fun _ => sampleHeaders) 2 [("headers", ["1"]), ("body", ["0"])]
          = some out ∧
        (out.w.header.size : Int) - 1 ≤ 868 := by
  refine ⟨fun _ => List.Perm.refl _, by unfold ValidRequest; decide, ?_⟩
  obtain ⟨out, hrun, hs, -, -⟩ :=
    C8_bounded_overshoot (fun _ => false) (fun _ => sampleHeaders) 2
      [("headers", ["1"]), ("body", ["0"])] 0 1 0
      (fun _ => List.Perm.refl _) (by decide) (by unfold ValidRequest; decide)
  exact ⟨out, hrun, hs⟩

/-- C9: for every valid request the padding loop terminates.  With `bb` the
adjusted budget (`headers - 45` when `body > 0`, `headers` otherwise) and 868 the
cost of a pass over the pool, it makes no pass when `bb ≤ 0` and `⌈bb / 868⌉`
passes otherwise, never more than 2; it stops at the first pass after which the
budget is not positive, and the final budget `r` is `bb` minus 868 per pass, so
`-868 < r ≤ 0` whenever `bb > 0`. -/
theorem C9_loop_passes (p : Char → Bool) (orders : Nat → List (String × String)) (fuel : Nat)
    (q : Values) (t h b bb : Int) (ho : PoolOrders orders) (hf : 2 ≤ fuel)
    (hv : ValidRequest q t h b) (hbb : bb = if 0 < b then h - 45 else h) :
    ∃ out, handler p orders fuel q = some out ∧
      passCost sampleHeaders = 868 ∧
      (bb ≤ 0 → out.passes = 0 ∧ out.budget = bb) ∧
      (0 < bb → (out.passes : Int) = (bb + 867) / 868 ∧ -868 < out.budget ∧ out.budget ≤ 0) ∧
      out.passes ≤ 2 ∧
      out.budget = bb - 868 * (out.passes : Int) ∧
      (∀ k : Nat, k < out.passes → 0 < bb - 868 * (k : Int)) := by
  obtain ⟨H, hrun, -, -⟩ := handler_spec p orders ho fuel hf q t h b hv
  have hh1 : h ≤ 1000 := hv.2.2.2.2.2.1
  have hb0 : 0 ≤ b := hv.2.2.2.2.2.2.2.1
  have hsb : startBudget h b = bb := by rw [startBudget_eq h b hb0, hbb]
  have hle : bb ≤ 1000 := by
    rw [hbb]
    split_ifs <;> omega
  rw [hsb] at hrun
  refine ⟨_, hrun, passCost_sampleHeaders, ?_, ?_, ?_, rfl, ?_⟩
  · intro h0
    show passesFor bb = 0 ∧ bb - 868 * (passesFor bb : Int) = bb
    simp [passesFor, h0]
  · intro h0
    show (passesFor bb : Int) = (bb + 867) / 868 ∧ -868 < bb - 868 * (passesFor bb : Int) ∧
      bb - 868 * (passesFor bb : Int) ≤ 0
    unfold passesFor
    rw [if_neg (by omega)]
    by_cases h1 : bb ≤ 868
    · rw [if_pos h1]
      refine ⟨?_, ?_, ?_⟩ <;> push_cast <;> omega
    · rw [if_neg h1]
      refine ⟨?_, ?_, ?_⟩ <;> push_cast <;> omega
  · show passesFor bb ≤ 2
    unfold passesFor
    split_ifs <;> omega
  · intro k hk
    have hk1 : k < passesFor bb := hk
    unfold passesFor at hk1
    split_ifs at hk1 with h0 h1 <;> omega

theorem C9_loop_passes_witness :
    PoolOrders (fun _ => sampleHeaders) ∧ ValidRequest [("headers", ["914"])] 0 914 400 ∧
      ∃ out, handler (fun _ => false) (fun _ => sampleHeaders) 2 [("headers", ["914"])]
          = some out ∧
        (out.passes : Int) = ((869 : Int) + 867) / 868 ∧ -868 < out.budget ∧ out.budget ≤ 0 := by
  refine ⟨fun _ => List.Perm.refl _, by unfold ValidRequest; decide, ?_⟩
  obtain ⟨out, hrun, -, -, hpos, -, -, -⟩ :=
    C9_loop_passes (fun _ => false) (fun _ => sampleHeaders) 2 [("headers", ["914"])] 0 914 400
      869 (fun _ => List.Perm.refl _) (by decide) (by unfold ValidRequest; decide) (by decide)
  exact ⟨out, hrun, hpos (by decide)⟩

theorem canonPool_lookup_entry :
    ∀ e ∈ sampleHeaders, canonPool.lookup (canonicalMIMEHeaderKey e.1) = some [e.2] := by
  decide

theorem baseHeader_lookup_entry (b : Int) :
    ∀ e ∈ sampleHeaders, (baseHeader b).lookup (canonicalMIMEHeaderKey e.1) = none := by
  unfold baseHeader
  split_ifs
  · intro e _
    rfl
  · decide

/-- C10: header assembly is all-or-nothing around the adjusted budget `bb`
(`headers - 45` when `body > 0`, `headers` when `body = 0`): the header map of a
valid request binds every entry of `sampleHeaders` to its value when `bb > 0`
and none of them when `bb ≤ 0`, binds `Content-Type` exactly when `body > 0`,
and holds nothing else.  So `body > 0` with `headers ≤ 45` gives only
`Content-Type`, `body > 0` with `headers = 46` gives the whole pool, and
`body = 0` with `headers = 0` gives the empty header map. -/
theorem C10_all_or_nothing (p : Char → Bool) (orders : Nat → List (String × String))
    (fuel : Nat) (q : Values) (t h b bb : Int) (ho : PoolOrders orders) (hf : 2 ≤ fuel)
    (hv : ValidRequest q t h b) (hbb : bb = if 0 < b then h - 45 else h) :
    ∃ out, handler p orders fuel q = some out ∧
      (0 < bb → ∀ e ∈ sampleHeaders, Header.Values out.w.header e.1 = some [e.2]) ∧
      (bb ≤ 0 → ∀ e ∈ sampleHeaders, Header.Values out.w.header e.1 = none) ∧
      ((Header.Values out.w.header "Content-Type").isSome = true ↔ 0 < b) ∧
      out.w.header.length = (if 0 < bb then 27 else 0) + (if 0 < b then 1 else 0) ∧
      (0 < b ∧ h ≤ 45 →
        out.w.header = [("Content-Type", ["application/json; charset=utf-8"])]) ∧
      (0 < b ∧ h = 46 → ∀ e ∈ sampleHeaders, Header.Values out.w.header e.1 = some [e.2]) ∧
      (b = 0 ∧ h = 0 → out.w.header = []) := by
  obtain ⟨H, hrun, h0, h1⟩ := handler_spec p orders ho fuel hf q t h b hv
  have hb0 : 0 ≤ b := hv.2.2.2.2.2.2.2.1
  have hsb : startBudget h b = bb := by rw [startBudget_eq h b hb0, hbb]
  rw [hsb] at h0 h1
  have hall : 0 < bb → ∀ e ∈ sampleHeaders, Header.Values H e.1 = some [e.2] := by
    intro hpos e he
    unfold Header.Values
    rw [(h1 hpos).2, lookup_append, canonPool_lookup_entry e he]
  have hlen := (header_perm H h b (hsb ▸ h0) (hsb ▸ h1)).length_eq
  rw [hsb] at hlen
  refine ⟨_, hrun, ?_, ?_, ?_, ?_, ?_, ?_, ?_⟩
  · intro hpos e he
    rw [bodySwitch_header]
    exact hall hpos e he
  · intro hneg e he
    rw [bodySwitch_header, h0 hneg]
    exact baseHeader_lookup_entry b e he
  · unfold Header.Values
    rw [bodySwitch_header, canonical_contentType,
      lookup_contentType H h b (hsb ▸ h0) (hsb ▸ h1)]
    by_cases hb : b = 0
    · simp [hb]
    · simp only [if_neg hb, Option.isSome_some, true_iff]
      omega
  · rw [bodySwitch_header, hlen]
    unfold baseHeader
    by_cases hb : b = 0
    · subst hb
      split_ifs <;> first | rfl | omega
    · rw [if_neg hb, if_pos (show 0 < b by omega)]
      split_ifs <;> first | rfl | omega
  · rintro ⟨hb, hh⟩
    rw [bodySwitch_header, h0 (by rw [hbb, if_pos hb]; omega)]
    unfold baseHeader
    rw [if_neg (by omega)]
  · rintro ⟨hb, hh⟩ e he
    rw [bodySwitch_header]
    exact hall (by rw [hbb, if_pos hb]; omega) e he
  · rintro ⟨hb, hh⟩
    rw [bodySwitch_header, h0 (by rw [hbb, if_neg (by omega)]; omega)]
    unfold baseHeader
    rw [if_pos hb]

theorem C10_all_or_nothing_witness :
    PoolOrders (fun _ => sampleHeaders) ∧
      ValidRequest [("headers", ["46"]), ("body", ["1"])] 0 46 1 ∧
      ∃ out,
        handler (fun _ => false) (fun _ => sampleHeaders) 2 [("headers", ["46"]), ("body", ["1"])]
          = some out ∧
        (∀ e ∈ sampleHeaders, Header.Values out.w.header e.1 = some [e.2]) ∧
        out.w.header.length = 28 := by
  refine ⟨fun _ => List.Perm.refl _, by unfold ValidRequest; decide, ?_⟩
  obtain ⟨out, hrun, hall, -, -, hlen, -, -, -⟩ :=
    C10_all_or_nothing (fun _ => false) (fun _ => sampleHeaders) 2
      [("headers", ["46"]), ("body", ["1"])] 0 46 1 1
      (fun _ => List.Perm.refl _) (by decide) (by unfold ValidRequest; decide) (by decide)
  exact ⟨out, hrun, hall (by decide), hlen⟩

/-- The characters of the body written for a valid `body` value, in closed
form. -/
theorem bodySwitch_toList (p : Char → Bool) (H : Header) (s : Nat) (b : Int) :
    (bodySwitch p ⟨H, some s, ""⟩ b).body.toList =
      if b = 0 then []
      else if b = 1 then ['1']
      else if b = 2 then ['1', '2']
      else if 3 ≤ b ∧ b < 8 then
        [Char.ofNat 34, Char.ofNat 34] ++ List.replicate (b - 2).toNat '3'
          ++ [Char.ofNat 34, Char.ofNat 34]
      else
        "\x7b\"a\":\"\"".toList ++ List.replicate (b - 8).toNat 'B' ++ "\"\"\x7d".toList := by
  rw [bodySwitch_body]
  have h3 := strconvQuote_run p '3' (b - 2).toNat (appendEscapedRune_three p)
  have hB := strconvQuote_run p 'B' (b - 8).toNat (appendEscapedRune_B p)
  have e3 : (String.mk ['3']) = "3" := rfl
  have eB : (String.mk ['B']) = "B" := rfl
  rw [e3] at h3
  rw [eB] at hB
  split_ifs
  · rfl
  · rfl
  · rfl
  · rw [h3]
    simp [String.toList, String.data_append]
  · rw [hB]
    simp [String.toList, String.data_append]

theorem utf8Len_replicate (c : Char) (n : Nat) (hc : c.utf8Size = 1) :
    String.utf8Len (List.replicate n c) = n := by
  induction n with
  | zero => rfl
  | succ k ih => rw [List.replicate_succ, String.utf8Len_cons, ih, hc]

/-- The number of bytes of the body written, as a function of `body`. -/
theorem bodySwitch_len (p : Char → Bool) (H : Header) (s : Nat) (b : Int) (hb : 0 ≤ b) :
    (goLen (bodySwitch p ⟨H, some s, ""⟩ b).body : Int) = if b ≤ 2 then b else b + 2 := by
  have e : goLen (bodySwitch p ⟨H, some s, ""⟩ b).body
      = String.utf8Len (bodySwitch p ⟨H, some s, ""⟩ b).body.toList := rfl
  rw [e, bodySwitch_toList]
  have c3 : ('3' : Char).utf8Size = 1 := by decide
  have cB : ('B' : Char).utf8Size = 1 := by decide
  have l2 : String.utf8Len [Char.ofNat 34, Char.ofNat 34] = 2 := by decide
  have l7 : String.utf8Len "\x7b\"a\":\"\"".toList = 7 := by decide
  have l3 : String.utf8Len "\"\"\x7d".toList = 3 := by decide
  by_cases h0 : b = 0
  · subst h0
    rfl
  by_cases h1 : b = 1
  · subst h1
    rfl
  by_cases h2 : b = 2
  · subst h2
    rfl
  rw [if_neg h0, if_neg h1, if_neg h2, if_neg (show ¬ b ≤ 2 by omega)]
  by_cases h8 : b < 8
  · rw [if_pos ⟨by omega, h8⟩, String.utf8Len_append, String.utf8Len_append, l2,
      utf8Len_replicate _ _ c3]
    push_cast
    rw [Int.toNat_of_nonneg (by omega)]
    ring
  · rw [if_neg (fun h => h8 h.2), String.utf8Len_append, String.utf8Len_append, l7, l3,
      utf8Len_replicate _ _ cB]
    push_cast
    rw [Int.toNat_of_nonneg (by omega)]
    ring

/-- C11: for every valid request the number of bytes written as body equals
`body` when `body` is 0, 1 or 2 and equals `body + 2` for every `body` from 3
to 2000; so the written length equals the requested one for exactly the three
values 0, 1, 2, is never smaller than requested and exceeds it by at most 2. -/
theorem C11_body_length (p : Char → Bool) (orders : Nat → List (String × String)) (fuel : Nat)
    (q : Values) (t h b : Int) (ho : PoolOrders orders) (hf : 2 ≤ fuel)
    (hv : ValidRequest q t h b) :
    ∃ out, handler p orders fuel q = some out ∧
      (b = 0 ∨ b = 1 ∨ b = 2 → (goLen out.w.body : Int) = b) ∧
      (3 ≤ b ∧ b ≤ 2000 → (goLen out.w.body : Int) = b + 2) ∧
      ((goLen out.w.body : Int) = b ↔ b = 0 ∨ b = 1 ∨ b = 2) ∧
      b ≤ (goLen out.w.body : Int) ∧
      (goLen out.w.body : Int) ≤ b + 2 := by
  obtain ⟨H, hrun, -, -⟩ := handler_spec p orders ho fuel hf q t h b hv
  have hb0 : 0 ≤ b := hv.2.2.2.2.2.2.2.1
  have hlen := bodySwitch_len p H (if b = 0 then 204 else 200) b hb0
  refine ⟨_, hrun, ?_, ?_, ?_, ?_, ?_⟩
  · intro hb
    rw [hlen, if_pos (by omega)]
  · intro hb
    rw [hlen, if_neg (by omega)]
  · rw [hlen]
    split_ifs <;> omega
  · rw [hlen]
    split_ifs <;> omega
  · rw [hlen]
    split_ifs <;> omega

theorem C11_body_length_witness :
    PoolOrders (fun _ => sampleHeaders) ∧ ValidRequest [("body", ["2000"])] 0 400 2000 ∧
      ∃ out, handler (fun _ => false) (fun _ => sampleHeaders) 2 [("body", ["2000"])] = some out ∧
        (goLen out.w.body : Int) = 2000 + 2 := by
  refine ⟨fun _ => List.Perm.refl _, by unfold ValidRequest; decide, ?_⟩
  obtain ⟨out, hrun, -, h3, -, -, -⟩ :=
    C11_body_length (fun _ => false) (fun _ => sampleHeaders) 2 [("body", ["2000"])] 0 400 2000
      (fun _ => List.Perm.refl _) (by decide) (by unfold ValidRequest; decide)
  exact ⟨out, hrun, h3 (by decide)⟩

theorem isObjectWithOneStringMember_examples :
    isObjectWithOneStringMember "\x7b\"a\":\"BB\"\x7d" = true ∧
    isObjectWithOneStringMember " \x7b \"a\" : \"B\\\"\\u00e9\\n\" \x7d\n" = true ∧
    isObjectWithOneStringMember "\x7b\"a\":\"\"\x7d" = true ∧
    isObjectWithOneStringMember "\x7b\"a\":\"B\x7d" = false ∧
    isObjectWithOneStringMember "\x7b\"a\":12\x7d" = false ∧
    isObjectWithOneStringMember "\x7b\"a\":\"B\",\"b\":\"C\"\x7d" = false := by
  decide

theorem not_object_of_toList (s : String) (n : Nat)
    (hs : s.toList = "\x7b\"a\":\"\"".toList ++ List.replicate n 'B' ++ "\"\"\x7d".toList) :
    isObjectWithOneStringMember s = false := by
  unfold isObjectWithOneStringMember
  rw [hs]
  cases n <;> rfl

/-- C12: the code on a valid request with `body ≥ 8`: the handler announces
`Content-Type: application/json; charset=utf-8`, but the body it writes, the
text `{"a":""` followed by the run of `B` and `""}`, is not a JSON object with
one member whose value is a JSON string: the value read after the colon is the
empty string and what follows it is neither whitespace nor `}`. -/
theorem C12_body_not_json (p : Char → Bool) (orders : Nat → List (String × String)) (fuel : Nat)
    (q : Values) (t h b : Int) (ho : PoolOrders orders) (hf : 2 ≤ fuel)
    (hv : ValidRequest q t h b) (hb : 8 ≤ b) :
    ∃ out, handler p orders fuel q = some out ∧
      Header.Values out.w.header "Content-Type" = some ["application/json; charset=utf-8"] ∧
      out.w.body.toList
        = "\x7b\"a\":\"\"".toList ++ List.replicate (b - 8).toNat 'B' ++ "\"\"\x7d".toList ∧
      isObjectWithOneStringMember out.w.body = false := by
  obtain ⟨H, hrun, h0, h1⟩ := handler_spec p orders ho fuel hf q t h b hv
  have hl := lookup_contentType H h b h0 h1
  have hlist : (bodySwitch p ⟨H, some (if b = 0 then 204 else 200), ""⟩ b).body.toList
      = "\x7b\"a\":\"\"".toList ++ List.replicate (b - 8).toNat 'B' ++ "\"\"\x7d".toList := by
    rw [bodySwitch_toList, if_neg (by omega), if_neg (by omega), if_neg (by omega),
      if_neg (by omega)]
  refine ⟨_, hrun, ?_, hlist, not_object_of_toList _ _ hlist⟩
  unfold Header.Values
  rw [bodySwitch_header, canonical_contentType, hl, if_neg (by omega)]

theorem C12_body_not_json_witness :
    PoolOrders (fun _ => sampleHeaders) ∧ ValidRequest [("body", ["10"])] 0 400 10 ∧
      ∃ out, handler (fun _ => false) (fun _ => sampleHeaders) 2 [("body", ["10"])] = some out ∧
        out.w.body.toList = "\x7b\"a\":\"\"BB\"\"\x7d".toList ∧
        isObjectWithOneStringMember out.w.body = false := by
  refine ⟨fun _ => List.Perm.refl _, by unfold ValidRequest; decide, ?_⟩
  obtain ⟨out, hrun, -, hl, hj⟩ :=
    C12_body_not_json (fun _ => false) (fun _ => sampleHeaders) 2 [("body", ["10"])] 0 400 10
      (fun _ => List.Perm.refl _) (by decide) (by unfold ValidRequest; decide) (by decide)
  exact ⟨out, hrun, hl, hj⟩

/-- A request that is not valid is answered by `respondBadRequest` alone: no
sleep, no header, no pass of the padding loop. -/
theorem handler_rejected (p : Char → Bool) (orders : Nat → List (String × String)) (fuel : Nat)
    (q : Values) (hq : ¬ ∃ t h b, ValidRequest q t h b) :
    handler p orders fuel q = some ⟨⟨[], some 400, "invalid request params"⟩, [], 0, 0⟩ := by
  unfold handler
  simp only [respondBadRequest_fresh]
  by_cases h1 : (parseIntQuery q "time" defaultWaitTime).2 = false ∨
      (parseIntQuery q "time" defaultWaitTime).1 < 0 ∨
      (parseIntQuery q "time" defaultWaitTime).1 > 5000
  · rw [if_pos h1]
  · rw [if_neg h1]
    by_cases h2 : (parseIntQuery q "headers" defaultHeadersLength).2 = false ∨
        (parseIntQuery q "headers" defaultHeadersLength).1 < 0 ∨
        (parseIntQuery q "headers" defaultHeadersLength).1 > 1000
    · rw [if_pos h2]
    · rw [if_neg h2]
      by_cases h3 : (parseIntQuery q "body" defaultBodyLength).2 = false ∨
          (parseIntQuery q "body" defaultBodyLength).1 < 0 ∨
          (parseIntQuery q "body" defaultBodyLength).1 > 2000
      · rw [if_pos h3]
      · exfalso
        apply hq
        simp only [not_or, Bool.not_eq_false, not_lt, gt_iff_lt] at h1 h2 h3
        exact ⟨_, _, _, Prod.ext rfl h1.1, h1.2.1, h1.2.2, Prod.ext rfl h2.1, h2.2.1, h2.2.2,
          Prod.ext rfl h3.1, h3.2.1, h3.2.2⟩

/-- The response written by the handler does not depend on the wait time. -/
theorem respond_time (p : Char → Bool) (orders : Nat → List (String × String)) (fuel : Nat)
    (w : ResponseWriter) (t₁ t₂ h b : Int) (out₁ out₂ : Outcome)
    (h₁ : respond p orders fuel w t₁ h b = some out₁)
    (h₂ : respond p orders fuel w t₂ h b = some out₂) : out₁.w = out₂.w := by
  unfold respond at h₁ h₂
  simp only at h₁ h₂
  split at h₁
  · exact absurd h₁ (by simp)
  · rename_i w2 n2 ps heq
    rw [heq] at h₂
    simp only [Option.some.injEq] at h₁ h₂
    rw [← h₁, ← h₂]

/-- C13: the wait time affects only the delay.  Two valid requests with the
same `headers` and `body` values and any two `time` values get the same status
code, the same header map and the same body; each run sleeps exactly once, for
its own `time` in milliseconds; and a request that is rejected, for whatever
parameter and whatever its `time` value, does not sleep at all. -/
theorem C13_time_only_delays (p : Char → Bool) (orders₁ orders₂ : Nat → List (String × String))
    (fuel₁ fuel₂ : Nat) (q₁ q₂ : Values) (t₁ t₂ h b : Int) (ho₁ : PoolOrders orders₁)
    (ho₂ : PoolOrders orders₂) (hf₁ : 2 ≤ fuel₁) (hf₂ : 2 ≤ fuel₂)
    (hv₁ : ValidRequest q₁ t₁ h b) (hv₂ : ValidRequest q₂ t₂ h b) :
    ∃ out₁ out₂, handler p orders₁ fuel₁ q₁ = some out₁ ∧ handler p orders₂ fuel₂ q₂ = some out₂ ∧
      out₁.w.status = out₂.w.status ∧
      (∀ k, out₁.w.header.lookup k = out₂.w.header.lookup k) ∧
      out₁.w.header.Perm out₂.w.header ∧
      out₁.w.body = out₂.w.body ∧
      (orders₁ = orders₂ → fuel₁ = fuel₂ → out₁.w = out₂.w) ∧
      out₁.sleeps = [t₁] ∧ out₂.sleeps = [t₂] ∧
      (∀ (orders : Nat → List (String × String)) (fuel : Nat) (q : Values),
        (¬ ∃ t h b, ValidRequest q t h b) →
          ∃ out, handler p orders fuel q = some out ∧ out.w.status = some 400 ∧
            out.sleeps = []) := by
  obtain ⟨H₁, hrun₁, h0₁, h1₁⟩ := handler_spec p orders₁ ho₁ fuel₁ hf₁ q₁ t₁ h b hv₁
  obtain ⟨H₂, hrun₂, h0₂, h1₂⟩ := handler_spec p orders₂ ho₂ fuel₂ hf₂ q₂ t₂ h b hv₂
  have hlook : ∀ k, H₁.lookup k = H₂.lookup k := by
    intro k
    by_cases hs : startBudget h b ≤ 0
    · rw [h0₁ hs, h0₂ hs]
    · rw [(h1₁ (not_le.1 hs)).2, (h1₂ (not_le.1 hs)).2]
  refine ⟨_, _, hrun₁, hrun₂, ?_, ?_, ?_, ?_, ?_, rfl, rfl, ?_⟩
  · rw [bodySwitch_status p _ b _ rfl, bodySwitch_status p _ b _ rfl]
  · intro k
    rw [bodySwitch_header, bodySwitch_header]
    exact hlook k
  · rw [bodySwitch_header, bodySwitch_header]
    exact (header_perm H₁ h b h0₁ h1₁).trans (header_perm H₂ h b h0₂ h1₂).symm
  · rw [bodySwitch_body, bodySwitch_body]
  · intro ho hfu
    subst ho hfu
    rw [handler_valid p orders₁ fuel₁ q₁ t₁ h b hv₁] at hrun₁
    rw [handler_valid p orders₁ fuel₁ q₂ t₂ h b hv₂] at hrun₂
    exact respond_time p orders₁ fuel₁ _ t₁ t₂ h b _ _ hrun₁ hrun₂
  · intro orders fuel q hq
    exact ⟨_, handler_rejected p orders fuel q hq, rfl, rfl⟩

theorem C13_time_only_delays_witness :
    PoolOrders (fun _ => sampleHeaders) ∧
      ValidRequest [("time", ["0"])] 0 400 400 ∧ ValidRequest [("time", ["5000"])] 5000 400 400 ∧
      (¬ ∃ t h b, ValidRequest [("time", ["5000"]), ("body", ["-1"])] t h b) ∧
      (∃ out₁ out₂,
        handler (fun _ => false) (fun _ => sampleHeaders) 2 [("time", ["0"])] = some out₁ ∧
        handler (fun _ => false) (fun _ => sampleHeaders) 2 [("time", ["5000"])] = some out₂ ∧
        out₁.w = out₂.w ∧ out₁.sleeps = [0] ∧ out₂.sleeps = [5000]) ∧
      ∃ out,
        handler (fun _ => false) (fun _ => sampleHeaders) 2
          [("time", ["5000"]), ("body", ["-1"])] = some out ∧
        out.w.status = some 400 ∧ out.sleeps = [] := by
  have hbad : ¬ ∃ t h b, ValidRequest [("time", ["5000"]), ("body", ["-1"])] t h b := by
    rintro ⟨t, h, b, -, -, -, -, -, -, hb, hb0, -⟩
    have e : parseIntQuery [("time", ["5000"]), ("body", ["-1"])] "body" defaultBodyLength
        = (-1, true) := by decide
    rw [e] at hb
    have : (-1 : Int) = b := congrArg Prod.fst hb
    omega
  obtain ⟨o₁, o₂, r₁, r₂, -, -, -, -, hw, s₁, s₂, hrej⟩ :=
    C13_time_only_delays (fun _ => false) (fun _ => sampleHeaders) (fun _ => sampleHeaders) 2 2
      [("time", ["0"])] [("time", ["5000"])] 0 5000 400 400
      (fun _ => List.Perm.refl _) (fun _ => List.Perm.refl _) (by decide) (by decide)
      (by unfold ValidRequest; decide) (by unfold ValidRequest; decide)
  exact ⟨fun _ => List.Perm.refl _, by unfold ValidRequest; decide,
    by unfold ValidRequest; decide, hbad, ⟨o₁, o₂, r₁, r₂, hw rfl rfl, s₁, s₂⟩,
    hrej (fun _ => sampleHeaders) 2 _ hbad⟩

/-- C14: the number of bytes written as body is strictly increasing in `body`
over the valid range (0, 1, 2, then `body + 2` from 3 on, 9 and 10 at the
switch of template between 7 and 8), so two valid requests with different
`body` values never get the same body. -/
theorem C14_body_injective (p : Char → Bool) (orders₁ orders₂ : Nat → List (String × String))
    (fuel₁ fuel₂ : Nat) (q₁ q₂ : Values) (t₁ h₁ b₁ t₂ h₂ b₂ : Int) (ho₁ : PoolOrders orders₁)
    (ho₂ : PoolOrders orders₂) (hf₁ : 2 ≤ fuel₁) (hf₂ : 2 ≤ fuel₂)
    (hv₁ : ValidRequest q₁ t₁ h₁ b₁) (hv₂ : ValidRequest q₂ t₂ h₂ b₂) :
    ∃ out₁ out₂, handler p orders₁ fuel₁ q₁ = some out₁ ∧ handler p orders₂ fuel₂ q₂ = some out₂ ∧
      (b₁ < b₂ → goLen out₁.w.body < goLen out₂.w.body) ∧
      (b₁ ≠ b₂ → out₁.w.body ≠ out₂.w.body) ∧
      (b₁ = 7 ∧ b₂ = 8 → goLen out₁.w.body = 9 ∧ goLen out₂.w.body = 10) := by
  obtain ⟨H₁, hrun₁, -, -⟩ := handler_spec p orders₁ ho₁ fuel₁ hf₁ q₁ t₁ h₁ b₁ hv₁
  obtain ⟨H₂, hrun₂, -, -⟩ := handler_spec p orders₂ ho₂ fuel₂ hf₂ q₂ t₂ h₂ b₂ hv₂
  have hb₁ : 0 ≤ b₁ := hv₁.2.2.2.2.2.2.2.1
  have hb₂ : 0 ≤ b₂ := hv₂.2.2.2.2.2.2.2.1
  have hl₁ := bodySwitch_len p H₁ (if b₁ = 0 then 204 else 200) b₁ hb₁
  have hl₂ := bodySwitch_len p H₂ (if b₂ = 0 then 204 else 200) b₂ hb₂
  have hlt : ∀ {x y : Int}, x < y →
      (if x ≤ 2 then x else x + 2) < (if y ≤ 2 then y else y + 2) := by
    intro x y hxy
    split_ifs <;> omega
  have hmono : b₁ < b₂ → goLen (bodySwitch p ⟨H₁, some (if b₁ = 0 then 204 else 200), ""⟩ b₁).body
      < goLen (bodySwitch p ⟨H₂, some (if b₂ = 0 then 204 else 200), ""⟩ b₂).body := by
    intro hlt'
    have := hlt hlt'
    rw [← hl₁, ← hl₂] at this
    exact_mod_cast this
  have hmono' : b₂ < b₁ → goLen (bodySwitch p ⟨H₂, some (if b₂ = 0 then 204 else 200), ""⟩ b₂).body
      < goLen (bodySwitch p ⟨H₁, some (if b₁ = 0 then 204 else 200), ""⟩ b₁).body := by
    intro hlt'
    have := hlt hlt'
    rw [← hl₁, ← hl₂] at this
    exact_mod_cast this
  refine ⟨_, _, hrun₁, hrun₂, hmono, ?_, ?_⟩
  · intro hne heq
    rcases lt_or_gt_of_ne hne with hlt' | hgt
    · have := hmono hlt'
      rw [heq] at this
      exact lt_irrefl _ this
    · have := hmono' hgt
      rw [heq] at this
      exact lt_irrefl _ this
  · rintro ⟨e₁, e₂⟩
    subst e₁ e₂
    constructor
    · have : (goLen (bodySwitch p ⟨H₁, some (if (7 : Int) = 0 then 204 else 200), ""⟩ 7).body
          : Int) = 9 := by rw [hl₁]; rfl
      exact_mod_cast this
    · have : (goLen (bodySwitch p ⟨H₂, some (if (8 : Int) = 0 then 204 else 200), ""⟩ 8).body
          : Int) = 10 := by rw [hl₂]; rfl
      exact_mod_cast this

theorem C14_body_injective_witness :
    PoolOrders (fun _ => sampleHeaders) ∧ ValidRequest [("body", ["7"])] 0 400 7 ∧
      ValidRequest [("body", ["8"])] 0 400 8 ∧
      ∃ out₁ out₂,
        handler (fun _ => false) (fun _ => sampleHeaders) 2 [("body", ["7"])] = some out₁ ∧
        handler (fun _ => false) (fun _ => sampleHeaders) 2 [("body", ["8"])] = some out₂ ∧
        goLen out₁.w.body < goLen out₂.w.body ∧ out₁.w.body ≠ out₂.w.body := by
  refine ⟨fun _ => List.Perm.refl _, by unfold ValidRequest; decide,
    by unfold ValidRequest; decide, ?_⟩
  obtain ⟨o₁, o₂, r₁, r₂, hlt, hne, -⟩ :=
    C14_body_injective (fun _ => false) (fun _ => sampleHeaders) (fun _ => sampleHeaders) 2 2
      [("body", ["7"])] [("body", ["8"])] 0 400 7 0 400 8
      (fun _ => List.Perm.refl _) (fun _ => List.Perm.refl _) (by decide) (by decide)
      (by unfold ValidRequest; decide) (by unfold ValidRequest; decide)
  exact ⟨o₁, o₂, r₁, r₂, hlt (by decide), hne (by decide)⟩

end HttpServerPing
